import Mathlib

/-!
Verification of the traffic-pollution-prediction pipeline.

The pipeline (src/data_processing.py, src/feature_engineering.py,
src/models.py, app.py) manipulates pandas DataFrames.  We embed a DataFrame
shallowly as a `Table`: a header of column names, a list of rows of optional
values (a `none` cell is a pandas NaN/NaT), and an explicit index (pandas row
labels).  Timestamps are embedded as calendar records; `pd.to_datetime` is
modelled as the identity on already-parsed timestamp cells.  File-system
interaction (CSV reading, the companion-file search of `load_data`) is
abstracted into explicit arguments: a raw CSV becomes an input `Table`, and
the directory search for a companion traffic file becomes an
`Option Table` argument (`none` when no candidate file exists).
-/

/-- A calendar timestamp (pandas `Timestamp`), with the fields the code
reads via the `.dt` accessors. -/
structure Timestamp where
  year : Nat
  month : Nat
  day : Nat
  hour : Nat
  minute : Nat
deriving DecidableEq, Repr

/-- Encoding of a timestamp as a single natural number; for timestamps with
in-range fields this is monotone in calendar order, and it is the sort key
used to model chronological comparison. -/
def Timestamp.encode (t : Timestamp) : Nat :=
  ((((t.year * 13 + t.month) * 32 + t.day) * 24 + t.hour) * 60 + t.minute)

/-- A scalar cell value: a timestamp, a number, or a string. -/
inductive Val where
  | vDt : Timestamp → Val
  | vNum : Int → Val
  | vStr : String → Val
deriving DecidableEq, Repr

/-- A cell of a DataFrame; `none` models a missing value (NaN/NaT). -/
abbrev Cell := Option Val

/-- A DataFrame: column names, rows of cells, and the pandas index labels. -/
structure Table where
  header : List String
  rows : List (List Cell)
  index : List Nat
deriving DecidableEq, Repr

/-- Row-wellformedness: every row has one cell per header entry. -/
def Table.Wf (t : Table) : Prop :=
  ∀ r ∈ t.rows, r.length = t.header.length

instance (t : Table) : Decidable t.Wf := by
  unfold Table.Wf; infer_instance

/-- Number of rows. -/
def Table.nRows (t : Table) : Nat := t.rows.length

/-- Position of a column in the header, if present. -/
def Table.colIdx (t : Table) (c : String) : Option Nat :=
  t.header.findIdx? (fun x => x == c)

/-- Whether a column is present (`c in df.columns`). -/
def Table.hasCol (t : Table) (c : String) : Bool :=
  t.header.contains c

/-- The cells of a column (`df[c]`); `[]` if the column is absent (the code
only reads columns it has checked for, so the absent case is never hit on
the modelled paths). -/
def Table.getCol (t : Table) (c : String) : List Cell :=
  match t.colIdx c with
  | some i => t.rows.map (fun r => r.getD i none)
  | none => []

/-- Column assignment (`df[c] = vs`): replaces the cells of an existing
column, or appends a new column on the right, exactly as pandas does. -/
def Table.setCol (t : Table) (c : String) (vs : List Cell) : Table :=
  match t.colIdx c with
  | some i =>
    { t with rows := (t.rows.zip vs).map (fun p => p.1.set i p.2) }
  | none =>
    { t with header := t.header ++ [c],
             rows := (t.rows.zip vs).map (fun p => p.1 ++ [p.2]) }

/-- Positional truncation to the first `n` rows (`df.iloc[:n]`). -/
def Table.ilocTake (t : Table) (n : Nat) : Table :=
  { t with rows := t.rows.take n, index := t.index.take n }

/-- Reset the index to `0..nRows-1` (`df.reset_index(drop=True)`). -/
def Table.resetIndex (t : Table) : Table :=
  { t with index := List.range t.rows.length }

/-- Sort key rank: timestamp cells sort by their encoding, and every other
cell (in particular a missing one) sorts after all timestamps, modelling
pandas' `na_position='last'` default. -/
def cellRank (c : Cell) : Nat :=
  match c with
  | some (Val.vDt _) => 0
  | _ => 1

/-- Numeric sort key of a cell within its rank. -/
def cellDtVal (c : Cell) : Nat :=
  match c with
  | some (Val.vDt t) => t.encode
  | _ => 0

/-- Total comparison of cells used to sort on a datetime column:
lexicographic on rank, then on the timestamp encoding. -/
def dtCellLe (a b : Cell) : Bool :=
  decide (cellRank a < cellRank b ∨
    (cellRank a = cellRank b ∧ cellDtVal a ≤ cellDtVal b))

/-- Insert an element into a list assumed sorted by `le`. -/
def insertSorted {α : Type} (le : α → α → Bool) (a : α) (l : List α) : List α :=
  match l with
  | [] => [a]
  | b :: bs => if le a b then a :: b :: bs else b :: insertSorted le a bs

/-- Insertion sort by a boolean comparison, modelling `df.sort_values`. -/
def sortByLe {α : Type} (le : α → α → Bool) : List α → List α
  | [] => []
  | a :: as => insertSorted le a (sortByLe le as)

/-- Sort the rows (with their index labels) by the cells of column `c`
(`df.sort_values(c)`); identity if the column is absent (the code always
guards the sort with a presence check). -/
def Table.sortValues (t : Table) (c : String) : Table :=
  match t.colIdx c with
  | some i =>
    let le : Nat × List Cell → Nat × List Cell → Bool :=
      fun x y => dtCellLe (x.2.getD i none) (y.2.getD i none)
    let prs := sortByLe le (t.index.zip t.rows)
    { header := t.header, rows := prs.map Prod.snd, index := prs.map Prod.fst }
  | none => t

/-- The ordered pm25 alias candidates of `load_data` (line 24). -/
def pm25Candidates : List String :=
  ["PM2.5", "PM2_5", "PM25", "PM2.5 Emissions", "PM2.5 Emission", "PM2.5_Emissions"]

/-- Header action of `df.rename(columns={old: new})`. -/
def renameStr (cols : List String) (old new : String) : List String :=
  cols.map (fun c => if c = old then new else c)

/-- Header action of the schema normalization in `load_data`
(src/data_processing.py lines 9-27): the datetime and traffic if/elif
chains, then the pm25 candidate loop with its break. -/
def normalizeHeader (cols : List String) : List String :=
  let cols1 :=
    if cols.contains "datetime" then cols
    else if cols.contains "DateTime" then renameStr cols "DateTime" "datetime"
    else if cols.contains "date" then renameStr cols "date" "datetime"
    else cols
  let cols2 :=
    if cols1.contains "traffic_volume" then cols1
    else if cols1.contains "Vehicles" then renameStr cols1 "Vehicles" "traffic_volume"
    else if cols1.contains "traffic" then renameStr cols1 "traffic" "traffic_volume"
    else cols1
  if cols2.contains "pm25" then cols2
  else
    match pm25Candidates.find? (fun c => cols2.contains c) with
    | some a => renameStr cols2 a "pm25"
    | none => cols2

/-- The schema-normalization block of `load_data`; renaming touches only
column labels, never cells. -/
def normalizeSchema (t : Table) : Table :=
  { t with header := normalizeHeader t.header }

/-- `load_data` (src/data_processing.py lines 5-67).  `raw` is the parsed
input CSV; `companion` is the parsed companion traffic CSV located by the
candidate-filename search in the file's directory (lines 36-46), `none`
when no candidate file exists there.  `pd.to_datetime` is the identity on
our pre-parsed timestamp cells. -/
def load_data (raw : Table) (companion : Option Table) : Table :=
  let df := normalizeSchema raw
  let df :=
    if df.hasCol "datetime" then df
    else if df.hasCol "pm25" then
      match companion with
      | none => df
      | some traw =>
        let tdf :=
          if traw.hasCol "datetime" then traw
          else if traw.hasCol "DateTime" then
            { traw with header := renameStr traw.header "DateTime" "datetime" }
          else traw
        if tdf.hasCol "datetime" then
          let tdf2 := (tdf.sortValues "datetime").resetIndex
          let len := min df.nRows tdf2.nRows
          (df.ilocTake len).setCol "datetime" ((tdf2.getCol "datetime").take len)
        else df
    else df
  if df.hasCol "datetime" then (df.sortValues "datetime").resetIndex else df

/-- One pass of row-wise forward fill, carrying the cells last seen per
column; a missing cell takes the carried value, a present cell replaces it. -/
def ffillRows : List Cell → List (List Cell) → List (List Cell)
  | _, [] => []
  | carry, r :: rs =>
    let r' := List.zipWith (fun c l => match c with | some v => some v | none => l) r carry
    r' :: ffillRows r' rs

/-- `clean_data` (src/data_processing.py lines 70-73): `df.ffill()`, with
nothing carried into the first row. -/
def clean_data (t : Table) : Table :=
  { t with rows := ffillRows (List.replicate t.header.length none) t.rows }

/-- Key cells match in a pandas merge when both are present and equal
(a missing key matches nothing, NaN included). -/
def cellMatch (a b : Cell) : Bool :=
  match a, b with
  | some x, some y => x == y
  | _, _ => false

/-- Result header of `pd.merge(a, b, on=k)`: the left columns, then the
right columns other than the key; a non-key column present on both sides
gets the `_x`/`_y` suffixes. -/
def mergeHeader (a b : List String) (k : String) : List String :=
  let bRest := b.filter (fun c => !(c == k))
  a.map (fun c => if !(c == k) && bRest.contains c then c ++ "_x" else c)
    ++ bRest.map (fun c => if a.contains c then c ++ "_y" else c)

/-- `pd.merge(a, b, on=k, how='inner')`: each pair of rows with equal
non-missing key cells yields one output row (the left row followed by the
right row with its key cell removed), in left-row-major order, with a fresh
zero-based index.  The fallback arm models the key being absent, which the
callers rule out by their guards. -/
def mergeOn (a b : Table) (k : String) : Table :=
  match a.colIdx k, b.colIdx k with
  | some ai, some bi =>
    let rows := (a.rows.map (fun ra =>
      (b.rows.filter (fun rb => cellMatch (ra.getD ai none) (rb.getD bi none))).map
        (fun rb => ra ++ rb.eraseIdx bi))).flatten
    { header := mergeHeader a.header b.header k,
      rows := rows, index := List.range rows.length }
  | _, _ => { header := [], rows := [], index := [] }

/-- The errors `load_and_merge_two` raises (the two `KeyError` sites of
lines 87 and 95; the spec calls the kind `MissingTimestampError`). -/
inductive MergeError where
  | trafficMissingTimestamp
  | pollutionMissingTimestamp
deriving DecidableEq, Repr

/-- Lines 97-99 of `load_and_merge_two`: inner-merge on datetime, sort
ascending by datetime, reindex from zero. -/
def finishMerge (traffic pollution : Table) : Table :=
  ((mergeOn traffic pollution "datetime").sortValues "datetime").resetIndex

/-- Lines 90-93 of `load_and_merge_two`: truncate the pollution table to
the shorter length and copy the traffic timestamps onto it positionally. -/
def alignToTraffic (traffic pollution : Table) : Table :=
  let len := min traffic.nRows pollution.nRows
  (pollution.ilocTake len).setCol "datetime" ((traffic.getCol "datetime").take len)

/-- `load_and_merge_two` (src/data_processing.py lines 76-100). -/
def load_and_merge_two (trafficRaw pollutionRaw : Table)
    (trafficCompanion pollutionCompanion : Option Table) :
    Except MergeError Table :=
  let traffic := load_data trafficRaw trafficCompanion
  let pollution := load_data pollutionRaw pollutionCompanion
  if !traffic.hasCol "datetime" then
    Except.error MergeError.trafficMissingTimestamp
  else if !pollution.hasCol "datetime" && pollution.hasCol "pm25" then
    Except.ok (finishMerge traffic (alignToTraffic traffic pollution))
  else if !pollution.hasCol "datetime" then
    Except.error MergeError.pollutionMissingTimestamp
  else
    Except.ok (finishMerge traffic pollution)

/-- The dashboard's load path (app.py lines 43-48): merge, then clean. -/
def app_load_data (trafficRaw pollutionRaw : Table)
    (trafficCompanion pollutionCompanion : Option Table) :
    Except MergeError Table :=
  (load_and_merge_two trafficRaw pollutionRaw trafficCompanion
      pollutionCompanion).map clean_data

/-- Day of the week with Monday = 0 (pandas `dt.dayofweek`), computed from
the calendar date by Sakamoto's method. -/
def dayOfWeekMonday0 (y m d : Nat) : Nat :=
  let y' := if m < 3 then y - 1 else y
  let tm := [0, 3, 2, 5, 0, 3, 5, 1, 4, 6, 2, 4].getD (m - 1) 0
  ((y' + y' / 4 + y' / 400 + tm + d) - y' / 100 + 6) % 7

/-- `dt.hour` on one cell (missing on NaT). -/
def cellHour (c : Cell) : Cell :=
  match c with
  | some (Val.vDt t) => some (Val.vNum (Int.ofNat t.hour))
  | _ => none

/-- `dt.dayofweek` on one cell (Monday = 0). -/
def cellDayOfWeek (c : Cell) : Cell :=
  match c with
  | some (Val.vDt t) => some (Val.vNum (Int.ofNat (dayOfWeekMonday0 t.year t.month t.day)))
  | _ => none

/-- `dt.month` on one cell. -/
def cellMonth (c : Cell) : Cell :=
  match c with
  | some (Val.vDt t) => some (Val.vNum (Int.ofNat t.month))
  | _ => none

/-- `add_time_features` (src/feature_engineering.py lines 4-8). -/
def add_time_features (df : Table) : Table :=
  let df1 := df.setCol "hour" ((df.getCol "datetime").map cellHour)
  let df2 := df1.setCol "day_of_week" ((df1.getCol "datetime").map cellDayOfWeek)
  df2.setCol "month" ((df2.getCol "datetime").map cellMonth)

/-- `series.shift(lag)`: the first `lag` cells become missing and every
other cell takes the value `lag` rows earlier; length is preserved. -/
def shiftCol (lag : Nat) (xs : List Cell) : List Cell :=
  List.replicate (min lag xs.length) none ++ xs.take (xs.length - lag)

/-- The f-string column name of a lag feature. -/
def lagName (c : String) (lag : Nat) : String := c ++ "_lag" ++ toString lag

/-- `df.dropna()`: drop every row containing a missing value in any column. -/
def Table.dropna (t : Table) : Table :=
  let kept := (t.index.zip t.rows).filter (fun p => !(p.2.contains none))
  { t with rows := kept.map Prod.snd, index := kept.map Prod.fst }

/-- The nested column-adding loops of `add_lag_features` (lines 12-14). -/
def addLagCols (df : Table) (cols : List String) (lags : List Nat) : Table :=
  cols.foldl (fun d c =>
    lags.foldl (fun d2 lag =>
      d2.setCol (lagName c lag) (shiftCol lag (d2.getCol c))) d) df

/-- `add_lag_features` (src/feature_engineering.py lines 11-16). -/
def add_lag_features (df : Table) (cols : List String) (lags : List Nat) : Table :=
  (addLagCols df cols lags).dropna

/-- sklearn's held-out size for `test_size=0.2`: the ceiling of a fifth of
the row count. -/
def nTestOf (n : Nat) : Nat := (n + 4) / 5

/-- The feature matrix `df[feature_cols]` as rows of cells. -/
def featureRows (df : Table) (featureCols : List String) : List (List Cell) :=
  df.rows.map (fun r => featureCols.map (fun c =>
    match df.colIdx c with
    | some i => r.getD i none
    | none => none))

/-- `train_baseline_model` (src/models.py lines 11-45), parameterized by
the external least-squares fitter (sklearn's `LinearRegression`, an
off-the-shelf collaborator excluded from the spec's core): `fit X y`
returns the fitted prediction function.  The positional 80/20 split with
`shuffle=False` takes the final fifth (rounded up) of the rows as the test
set.  Returns the fitted model together with the predictions table written
to `outputs/predictions.csv`. -/
def train_baseline_model (df : Table) (targetCol : String)
    (featureCols : List String)
    (fit : List (List Cell) → List Cell → (List Cell → Cell)) :
    (List Cell → Cell) × Table :=
  let X := featureRows df featureCols
  let y := df.getCol targetCol
  let nTest := nTestOf df.nRows
  let nTrain := df.nRows - nTest
  let model := fit (X.take nTrain) (y.take nTrain)
  let yTest := y.drop nTrain
  let yPred := (X.drop nTrain).map model
  let dts := (df.getCol "datetime").drop (df.nRows - yTest.length)
  (model,
   { header := ["datetime", "actual", "predicted"],
     rows := List.zipWith3 (fun d a p => [d, a, p]) dts yTest yPred,
     index := List.range yTest.length })

/-- `predictions.to_csv(...)` replaces whatever the artifact previously
held with the freshly built predictions table. -/
def writePredictions (_prev : Option Table) (preds : Table) : Option Table :=
  some preds

/-- Whether the two temporary upload files are on disk. -/
structure TempFiles where
  trafficExists : Bool
  pollutionExists : Bool
deriving DecidableEq, Repr

/-- The upload branch of the dashboard (app.py lines 195-208) inside the
surrounding try/except: both temporary files are written, the load runs,
and only after a successful load do the two `os.remove` calls execute; an
exception propagates straight to the handler at line 390, skipping the
removes.  Returns the final on-disk state of the temp files together with
the outcome. -/
def uploadAndLoad (loadResult : Except MergeError Table) :
    TempFiles × Except MergeError Table :=
  match loadResult with
  | Except.ok df => (⟨false, false⟩, Except.ok df)
  | Except.error e => (⟨true, true⟩, Except.error e)

/-- The datetime aliases of the normalizer, in candidate order. -/
def datetimeAliases : List String := ["DateTime", "date"]

/-- The traffic-volume aliases of the normalizer, in candidate order. -/
def trafficAliases : List String := ["Vehicles", "traffic"]

/-- Modelled from the spec (section 4.1): the winning alias for a canonical
field is the first candidate present in the header, and only when the
canonical name itself is absent. -/
def specWinner (cols : List String) (canonical : String)
    (aliases : List String) : Option String :=
  if cols.contains canonical then none
  else aliases.find? (fun a => cols.contains a)

/-- Modelled from the spec (section 4.1): what one column name becomes
under the ordered-candidate renaming contract — the canonical name if the
column is that field's winning alias, itself otherwise. -/
def specRename (cols : List String) (c : String) : String :=
  if specWinner cols "datetime" datetimeAliases = some c then "datetime"
  else if specWinner cols "traffic_volume" trafficAliases = some c then "traffic_volume"
  else if specWinner cols "pm25" pm25Candidates = some c then "pm25"
  else c

/-- Number of occurrences of a cell value in a list of cells. -/
def cellCount (x : Cell) (l : List Cell) : Nat :=
  l.countP (fun y => decide (y = x))

/-- The number of timestamps present in both key-cell lists, counted with
many-to-many multiplicity: each shared timestamp contributes the product of
its occurrence counts; missing keys contribute nothing. -/
def matchCount (tk pk : List Cell) : Nat :=
  (tk.dedup.map (fun c =>
    match c with
    | some v => cellCount (some v) tk * cellCount (some v) pk
    | none => 0)).sum

/-! Helper lemmas about the sorting routine. -/

theorem perm_insertSorted {α : Type} (le : α → α → Bool) (a : α) (l : List α) :
    (insertSorted le a l).Perm (a :: l) := by
  induction l with
  | nil => simp [insertSorted]
  | cons b bs ih =>
    unfold insertSorted
    by_cases h : le a b = true
    · simp [h]
    · simp only [h, if_false]
      exact (ih.cons b).trans (List.Perm.swap a b bs)

theorem perm_sortByLe {α : Type} (le : α → α → Bool) (l : List α) :
    (sortByLe le l).Perm l := by
  induction l with
  | nil => simp [sortByLe]
  | cons a as ih =>
    unfold sortByLe
    exact (perm_insertSorted le a (sortByLe le as)).trans (ih.cons a)

theorem pairwise_insertSorted {α : Type} {le : α → α → Bool}
    (htot : ∀ x y, le x y = true ∨ le y x = true)
    (htr : ∀ x y z, le x y = true → le y z = true → le x z = true)
    (a : α) {l : List α} (h : l.Pairwise (fun x y => le x y = true)) :
    (insertSorted le a l).Pairwise (fun x y => le x y = true) := by
  induction l with
  | nil => simp [insertSorted]
  | cons b bs ih =>
    rcases List.pairwise_cons.mp h with ⟨hb, hbs⟩
    unfold insertSorted
    by_cases hab : le a b = true
    · simp only [hab, if_true]
      refine List.pairwise_cons.mpr ⟨?_, h⟩
      intro x hx
      rcases List.mem_cons.mp hx with rfl | hx
      · exact hab
      · exact htr a b x hab (hb x hx)
    · simp only [hab, if_false]
      refine List.pairwise_cons.mpr ⟨?_, ih hbs⟩
      intro x hx
      rcases (perm_insertSorted le a bs).mem_iff.mp hx with hx'
      rcases List.mem_cons.mp hx' with hxa | hx''
      · rw [hxa]
        rcases htot a b with h1 | h1
        · exact absurd h1 hab
        · exact h1
      · exact hb x hx''

theorem pairwise_sortByLe {α : Type} {le : α → α → Bool}
    (htot : ∀ x y, le x y = true ∨ le y x = true)
    (htr : ∀ x y z, le x y = true → le y z = true → le x z = true)
    (l : List α) :
    (sortByLe le l).Pairwise (fun x y => le x y = true) := by
  induction l with
  | nil => simp [sortByLe]
  | cons a as ih =>
    unfold sortByLe
    exact pairwise_insertSorted htot htr a ih

theorem dtCellLe_total (a b : Cell) : dtCellLe a b = true ∨ dtCellLe b a = true := by
  simp only [dtCellLe, decide_eq_true_eq]
  rcases Nat.lt_trichotomy (cellRank a) (cellRank b) with h | h | h
  · exact Or.inl (Or.inl h)
  · rcases Nat.le_total (cellDtVal a) (cellDtVal b) with h2 | h2
    · exact Or.inl (Or.inr ⟨h, h2⟩)
    · exact Or.inr (Or.inr ⟨h.symm, h2⟩)
  · exact Or.inr (Or.inl h)

theorem dtCellLe_trans (a b c : Cell) (h1 : dtCellLe a b = true)
    (h2 : dtCellLe b c = true) : dtCellLe a c = true := by
  simp only [dtCellLe, decide_eq_true_eq] at h1 h2 ⊢
  rcases h1 with h1 | ⟨h1e, h1v⟩
  · rcases h2 with h2 | ⟨h2e, h2v⟩
    · exact Or.inl (h1.trans h2)
    · exact Or.inl (h2e ▸ h1)
  · rcases h2 with h2 | ⟨h2e, h2v⟩
    · refine Or.inl ?_
      rw [h1e]
      exact h2
    · exact Or.inr ⟨h1e.trans h2e, h1v.trans h2v⟩

/-! Helper lemmas about `List.findIdx?` started at index zero. -/

theorem findIdx?_cons_zero {α : Type} (p : α → Bool) (a : α) (l : List α) :
    List.findIdx? p (a :: l) = if p a then some 0 else (List.findIdx? p l).map (· + 1) := by
  simp [List.findIdx?_cons, List.findIdx?_succ]

theorem findIdx?_cons_some {α : Type} (p : α → Bool) (a : α) (l : List α) (i : Nat)
    (h : List.findIdx? p (a :: l) = some i) :
    (p a = true ∧ i = 0) ∨
      (p a = false ∧ ∃ j, List.findIdx? p l = some j ∧ i = j + 1) := by
  rw [findIdx?_cons_zero] at h
  by_cases hp : p a = true
  · rw [if_pos hp] at h
    exact Or.inl ⟨hp, (Option.some.injEq _ _ ▸ h).symm⟩
  · rw [if_neg hp] at h
    cases hfi : List.findIdx? p l with
    | none =>
      rw [hfi] at h
      simp at h
    | some j =>
      rw [hfi] at h
      simp only [Option.map_some'] at h
      refine Or.inr ⟨Bool.eq_false_iff.mpr hp, j, rfl, ?_⟩
      exact (Option.some.injEq _ _ ▸ h).symm

theorem findIdx?_some_lt {α : Type} (p : α → Bool) (l : List α) (i : Nat)
    (h : List.findIdx? p l = some i) : i < l.length := by
  induction l generalizing i with
  | nil => simp [List.findIdx?_nil] at h
  | cons a as ih =>
    rcases findIdx?_cons_some p a as i h with ⟨-, rfl⟩ | ⟨-, j, hj, rfl⟩
    · simp
    · have := ih j hj
      simp only [List.length_cons]
      omega

theorem findIdx?_some_getD {α : Type} (p : α → Bool) (l : List α) (i : Nat)
    (d : α) (h : List.findIdx? p l = some i) : p (l.getD i d) = true := by
  induction l generalizing i with
  | nil => simp [List.findIdx?_nil] at h
  | cons a as ih =>
    rcases findIdx?_cons_some p a as i h with ⟨hp, rfl⟩ | ⟨-, j, hj, rfl⟩
    · simpa using hp
    · simpa using ih j hj

theorem findIdx?_isSome_iff {α : Type} (p : α → Bool) (l : List α) :
    (List.findIdx? p l).isSome = true ↔ ∃ x ∈ l, p x = true := by
  rw [List.findIdx?_isSome]
  exact List.any_eq_true

theorem findIdx?_append_left {α : Type} (p : α → Bool) (l l' : List α) (i : Nat)
    (h : List.findIdx? p l = some i) : List.findIdx? p (l ++ l') = some i := by
  induction l generalizing i with
  | nil => simp [List.findIdx?_nil] at h
  | cons a as ih =>
    rw [List.cons_append, findIdx?_cons_zero]
    rcases findIdx?_cons_some p a as i h with ⟨hp, rfl⟩ | ⟨hp, j, hj, rfl⟩
    · simp [hp]
    · simp [hp, ih j hj]

theorem findIdx?_none_of_all {α : Type} (p : α → Bool) (l : List α)
    (h : ∀ x ∈ l, p x = false) : List.findIdx? p l = none := by
  induction l with
  | nil => simp [List.findIdx?_nil]
  | cons a as ih =>
    rw [findIdx?_cons_zero]
    have ha : p a = false := h a (by simp)
    have hrec := ih (fun x hx => h x (by simp [hx]))
    simp [ha, hrec]

/-! Helper lemmas about table columns and the basic operations. -/

theorem hasCol_iff_mem (t : Table) (c : String) :
    t.hasCol c = true ↔ c ∈ t.header := by
  unfold Table.hasCol
  exact List.elem_iff

theorem colIdx_isSome_iff (t : Table) (c : String) :
    (t.colIdx c).isSome = true ↔ c ∈ t.header := by
  unfold Table.colIdx
  rw [findIdx?_isSome_iff]
  constructor
  · rintro ⟨x, hx, hpx⟩
    rw [beq_iff_eq] at hpx
    exact hpx ▸ hx
  · intro hc
    exact ⟨c, hc, beq_self_eq_true c⟩

theorem colIdx_exists_of_mem (t : Table) (c : String) (h : c ∈ t.header) :
    ∃ i, t.colIdx c = some i ∧ i < t.header.length ∧ t.header.getD i "" = c := by
  have hs : (t.colIdx c).isSome = true := (colIdx_isSome_iff t c).mpr h
  rcases Option.isSome_iff_exists.mp hs with ⟨i, hi⟩
  refine ⟨i, hi, findIdx?_some_lt _ _ _ hi, ?_⟩
  have := findIdx?_some_getD (fun x => x == c) t.header i "" hi
  rwa [beq_iff_eq] at this

theorem colIdx_eq_none_of_not_mem (t : Table) (c : String) (h : c ∉ t.header) :
    t.colIdx c = none := by
  unfold Table.colIdx
  refine findIdx?_none_of_all _ _ ?_
  intro x hx
  rw [Bool.eq_false_iff]
  intro hbeq
  rw [beq_iff_eq] at hbeq
  exact h (hbeq ▸ hx)

theorem getCol_eq_map (t : Table) (c : String) (i : Nat) (h : t.colIdx c = some i) :
    t.getCol c = t.rows.map (fun r => r.getD i none) := by
  unfold Table.getCol
  rw [h]

theorem getCol_length (t : Table) (c : String) (h : c ∈ t.header) :
    (t.getCol c).length = t.nRows := by
  rcases colIdx_exists_of_mem t c h with ⟨i, hi, -, -⟩
  rw [getCol_eq_map t c i hi, List.length_map]
  rfl

/-- `setCol` with a fresh column name appends the column on the right. -/
theorem setCol_fresh (t : Table) (c : String) (vs : List Cell) (h : c ∉ t.header) :
    t.setCol c vs =
      { header := t.header ++ [c],
        rows := (t.rows.zip vs).map (fun p => p.1 ++ [p.2]),
        index := t.index } := by
  unfold Table.setCol
  rw [colIdx_eq_none_of_not_mem t c h]

theorem nRows_setCol_fresh (t : Table) (c : String) (vs : List Cell)
    (h : c ∉ t.header) (hlen : vs.length = t.nRows) :
    (t.setCol c vs).nRows = t.nRows := by
  rw [setCol_fresh t c vs h]
  show ((t.rows.zip vs).map _).length = _
  rw [List.length_map, List.length_zip, hlen]
  exact Nat.min_self _

theorem wf_setCol_fresh (t : Table) (c : String) (vs : List Cell)
    (h : c ∉ t.header) (hw : t.Wf) : (t.setCol c vs).Wf := by
  rw [setCol_fresh t c vs h]
  intro r hr
  simp only [List.mem_map] at hr
  rcases hr with ⟨p, hp, rfl⟩
  rcases List.mem_zip hp with ⟨hp1, -⟩
  simp only [List.length_append, List.length_cons, List.length_nil]
  rw [hw p.1 hp1]

theorem findIdx?_append_none {α : Type} (p : α → Bool) (l l' : List α)
    (h : List.findIdx? p l = none) :
    List.findIdx? p (l ++ l') = (List.findIdx? p l').map (· + l.length) := by
  induction l with
  | nil =>
    cases hfi : List.findIdx? p l' with
    | none => simp [hfi]
    | some j => simp [hfi]
  | cons a as ih =>
    rw [findIdx?_cons_zero] at h
    by_cases hp : p a = true
    · rw [if_pos hp] at h
      simp at h
    · rw [if_neg hp] at h
      have h2 : List.findIdx? p as = none := by
        cases hfi : List.findIdx? p as with
        | none => rfl
        | some j =>
          rw [hfi] at h
          simp at h
      rw [List.cons_append, findIdx?_cons_zero, if_neg hp, ih h2]
      cases hfi : List.findIdx? p l' with
      | none => simp
      | some j =>
        simp only [Option.map_some', Option.some.injEq, List.length_cons]
        omega

theorem colIdx_setCol_fresh_self (t : Table) (c : String) (vs : List Cell)
    (h : c ∉ t.header) : (t.setCol c vs).colIdx c = some t.header.length := by
  rw [setCol_fresh t c vs h]
  show List.findIdx? (fun x => x == c) (t.header ++ [c]) = some t.header.length
  have hnone : List.findIdx? (fun x => x == c) t.header = none := by
    have := colIdx_eq_none_of_not_mem t c h
    unfold Table.colIdx at this
    exact this
  rw [findIdx?_append_none _ _ _ hnone, findIdx?_cons_zero]
  simp

theorem getCol_setCol_fresh_self (t : Table) (c : String) (vs : List Cell)
    (h : c ∉ t.header) (hw : t.Wf) (hlen : vs.length = t.nRows) :
    (t.setCol c vs).getCol c = vs := by
  have hci := colIdx_setCol_fresh_self t c vs h
  rw [getCol_eq_map _ c t.header.length hci, setCol_fresh t c vs h]
  show ((t.rows.zip vs).map _).map _ = vs
  rw [List.map_map]
  have : ∀ p ∈ t.rows.zip vs,
      ((fun r => r.getD t.header.length none) ∘ (fun p : List Cell × Cell => p.1 ++ [p.2])) p
        = Prod.snd p := by
    intro p hp
    rcases List.mem_zip hp with ⟨hp1, -⟩
    show (p.1 ++ [p.2]).getD t.header.length none = p.2
    rw [List.getD_append_right p.1 [p.2] none t.header.length
      (le_of_eq (hw p.1 hp1)), hw p.1 hp1]
    simp
  rw [List.map_congr_left this]
  exact List.map_snd_zip t.rows vs (by rw [hlen]; rfl)

theorem getCol_setCol_fresh_other (t : Table) (c c' : String) (vs : List Cell)
    (h : c ∉ t.header) (hc' : c' ∈ t.header) (hw : t.Wf)
    (hlen : vs.length = t.nRows) :
    (t.setCol c vs).getCol c' = t.getCol c' := by
  rcases colIdx_exists_of_mem t c' hc' with ⟨i, hi, hilt, -⟩
  have hci : (t.setCol c vs).colIdx c' = some i := by
    rw [setCol_fresh t c vs h]
    show List.findIdx? (fun x => x == c') (t.header ++ [c]) = some i
    exact findIdx?_append_left _ _ _ i hi
  rw [getCol_eq_map _ c' i hci, getCol_eq_map t c' i hi, setCol_fresh t c vs h]
  show ((t.rows.zip vs).map _).map _ = _
  rw [List.map_map]
  have : ∀ p ∈ t.rows.zip vs,
      ((fun r => r.getD i none) ∘ (fun p : List Cell × Cell => p.1 ++ [p.2])) p
        = ((fun r => r.getD i none) ∘ Prod.fst) p := by
    intro p hp
    rcases List.mem_zip hp with ⟨hp1, -⟩
    show (p.1 ++ [p.2]).getD i none = p.1.getD i none
    exact List.getD_append _ _ _ i (by rw [hw p.1 hp1]; exact hilt)
  rw [List.map_congr_left this, ← List.map_map]
  rw [List.map_fst_zip t.rows vs (by rw [hlen]; rfl)]

/-! Helper lemmas about `sortValues`, `ilocTake`, `resetIndex`. -/

theorem header_sortValues (t : Table) (c : String) :
    (t.sortValues c).header = t.header := by
  unfold Table.sortValues
  cases t.colIdx c <;> rfl

theorem rows_sortValues_perm (t : Table) (c : String)
    (hil : t.index.length = t.rows.length) :
    (t.sortValues c).rows.Perm t.rows := by
  unfold Table.sortValues
  cases h : t.colIdx c with
  | none => exact List.Perm.refl _
  | some i =>
    show ((sortByLe _ (t.index.zip t.rows)).map Prod.snd).Perm t.rows
    have hp := perm_sortByLe
      (fun x y : Nat × List Cell => dtCellLe (x.2.getD i none) (y.2.getD i none))
      (t.index.zip t.rows)
    have h2 := hp.map Prod.snd
    rwa [List.map_snd_zip _ _ (le_of_eq hil.symm)] at h2

theorem nRows_sortValues (t : Table) (c : String)
    (hil : t.index.length = t.rows.length) :
    (t.sortValues c).nRows = t.nRows :=
  (rows_sortValues_perm t c hil).length_eq

theorem getCol_sortValues_pairwise (t : Table) (c : String) (i : Nat)
    (h : t.colIdx c = some i) :
    ((t.sortValues c).getCol c).Pairwise (fun a b => dtCellLe a b = true) := by
  have hci : (t.sortValues c).colIdx c = some i := by
    unfold Table.colIdx
    rw [header_sortValues]
    exact h
  rw [getCol_eq_map _ c i hci]
  unfold Table.sortValues
  rw [h]
  show (((sortByLe _ (t.index.zip t.rows)).map Prod.snd).map
    (fun r => r.getD i none)).Pairwise _
  rw [List.map_map]
  have hpw := @pairwise_sortByLe (Nat × List Cell)
    (fun x y => dtCellLe (x.2.getD i none) (y.2.getD i none))
    (fun x y => dtCellLe_total _ _) (fun x y z => dtCellLe_trans _ _ _)
    (t.index.zip t.rows)
  exact hpw.map _ (fun a b hab => hab)

theorem nRows_ilocTake (t : Table) (n : Nat) :
    (t.ilocTake n).nRows = min n t.nRows := by
  show (t.rows.take n).length = _
  rw [List.length_take]
  rfl

theorem wf_ilocTake (t : Table) (n : Nat) (hw : t.Wf) : (t.ilocTake n).Wf := by
  intro r hr
  exact hw r (List.take_subset n t.rows hr)

theorem getCol_ilocTake (t : Table) (c : String) (n : Nat) (h : c ∈ t.header) :
    (t.ilocTake n).getCol c = (t.getCol c).take n := by
  rcases colIdx_exists_of_mem t c h with ⟨i, hi, -, -⟩
  have hci : (t.ilocTake n).colIdx c = some i := hi
  rw [getCol_eq_map _ c i hci, getCol_eq_map t c i hi]
  show (t.rows.take n).map _ = _
  rw [List.map_take]

/-! Helper lemmas about the row count of the inner merge. -/

theorem cellMatch_none (cb : Cell) : cellMatch none cb = false := by
  cases cb <;> rfl

theorem cellMatch_eq_decide (v : Val) (cb : Cell) :
    cellMatch (some v) cb = decide (cb = some v) := by
  cases cb with
  | none => rfl
  | some y =>
    show (v == y) = decide (some y = (some v : Cell))
    by_cases hv : v = y
    · subst hv
      simp
    · have h1 : (v == y) = false := by
        rw [Bool.eq_false_iff]
        intro hb
        exact hv (by rwa [beq_iff_eq] at hb)
      have h2 : decide (some y = (some v : Cell)) = false := by
        rw [decide_eq_false_iff_not]
        intro hb
        exact hv (Option.some.inj hb).symm
      rw [h1, h2]

theorem count_eq_countP_decide {α : Type} [DecidableEq α] (l : List α) (m : α) :
    l.count m = l.countP (fun y => decide (y = m)) := by
  rw [List.count_eq_countP]
  apply List.countP_congr
  intro x _
  rw [beq_iff_eq, decide_eq_true_eq]

theorem sum_map_eq_dedup_sum {α : Type} [DecidableEq α] (l : List α) (g : α → Nat) :
    (l.map g).sum
      = (l.dedup.map (fun m => l.countP (fun y => decide (y = m)) * g m)).sum := by
  have h1 := Finset.sum_list_map_count l g
  have h2 : l.toFinset = l.dedup.toFinset := by
    apply Finset.ext
    intro x
    simp [List.mem_toFinset, List.mem_dedup]
  have h3 := List.sum_toFinset
    (fun m => l.countP (fun y => decide (y = m)) * g m) (List.nodup_dedup l)
  rw [h1, h2, ← h3]
  apply Finset.sum_congr rfl
  intro x _
  rw [smul_eq_mul, count_eq_countP_decide]

theorem nRows_mergeOn (a b : Table) (k : String) (ai bi : Nat)
    (hai : a.colIdx k = some ai) (hbi : b.colIdx k = some bi) :
    (mergeOn a b k).nRows = matchCount (a.getCol k) (b.getCol k) := by
  unfold mergeOn
  rw [hai, hbi]
  show ((a.rows.map _).flatten).length = _
  rw [List.length_flatten, List.map_map]
  have hstep : ∀ ra : List Cell,
      (List.length ∘ fun ra0 => (b.rows.filter
        (fun rb => cellMatch (ra0.getD ai none) (rb.getD bi none))).map
          (fun rb => ra0 ++ rb.eraseIdx bi)) ra
      = (b.getCol k).countP (fun cb => cellMatch (ra.getD ai none) cb) := by
    intro ra
    show ((b.rows.filter _).map _).length = _
    rw [List.length_map, ← List.countP_eq_length_filter,
      getCol_eq_map b k bi hbi, List.countP_map]
    rfl
  rw [List.map_congr_left (fun ra _ => hstep ra)]
  have hcol : a.rows.map (fun ra =>
      (b.getCol k).countP (fun cb => cellMatch (ra.getD ai none) cb))
      = (a.getCol k).map (fun x => (b.getCol k).countP (fun cb => cellMatch x cb)) := by
    rw [getCol_eq_map a k ai hai, List.map_map]
    rfl
  rw [hcol, sum_map_eq_dedup_sum]
  unfold matchCount
  apply congrArg
  apply List.map_congr_left
  intro m hm
  cases m with
  | none =>
    show _ * (b.getCol k).countP (fun cb => cellMatch none cb) = 0
    have : (b.getCol k).countP (fun cb => cellMatch none cb) = 0 := by
      rw [List.countP_eq_zero]
      intro x _
      rw [cellMatch_none]
      exact Bool.false_ne_true
    rw [this, Nat.mul_zero]
  | some v =>
    show (a.getCol k).countP (fun y => decide (y = some v)) *
      (b.getCol k).countP (fun cb => cellMatch (some v) cb)
      = cellCount (some v) (a.getCol k) * cellCount (some v) (b.getCol k)
    have hb : (b.getCol k).countP (fun cb => cellMatch (some v) cb)
        = cellCount (some v) (b.getCol k) := by
      unfold cellCount
      apply List.countP_congr
      intro x _
      rw [cellMatch_eq_decide]
    rw [hb]
    rfl

/-! Claim C9: temporary-upload-file cleanup. -/

/-- C9 counterexample: when the load raises (here: the traffic table lacks
a timestamp), the upload branch leaves BOTH temporary files on disk — the
`os.remove` calls are skipped on the exception path, so cleanup is not
guaranteed on every exit path as claimed. -/
theorem C9_counterexample_tempfiles_remain_on_error :
    (uploadAndLoad (Except.error MergeError.trafficMissingTimestamp)).1.trafficExists
        = true ∧
      (uploadAndLoad
        (Except.error MergeError.trafficMissingTimestamp)).1.pollutionExists = true :=
  ⟨rfl, rfl⟩

/-- C9 (amended): the temporary upload files are deleted when and only when
the load succeeds; on any exception from loading or merging the deletes are
skipped and both files remain, the outcome being passed to the error
handler unchanged. -/
theorem C9_tempfile_cleanup_iff_success (r : Except MergeError Table) :
    ((uploadAndLoad r).1 = ⟨false, false⟩ ↔ ∃ df, r = Except.ok df) ∧
      (uploadAndLoad r).2 = r := by
  cases r with
  | ok df =>
    refine ⟨⟨fun _ => ⟨df, rfl⟩, fun _ => rfl⟩, rfl⟩
  | error e =>
    refine ⟨⟨fun h => ?_, fun h => ?_⟩, rfl⟩
    · exact absurd (congrArg TempFiles.trafficExists h) (by simp [uploadAndLoad])
    · rcases h with ⟨df, hdf⟩
      exact absurd hdf (by simp)

/-! Claim C3: exactly when `load_and_merge_two` raises. -/

/-- C3: `load_and_merge_two` fails with a `MissingTimestampError` exactly
when the traffic table still lacks a `datetime` column after normalization
(i.e. after `load_data`), or when the pollution table lacks both a
`datetime` column and a `pm25` column after normalization; in every other
case no error is raised. -/
theorem C3_missing_timestamp_error_iff (tr pr : Table) (tc pc : Option Table) :
    (∃ e, load_and_merge_two tr pr tc pc = Except.error e) ↔
      ((load_data tr tc).hasCol "datetime" = false ∨
        ((load_data pr pc).hasCol "datetime" = false ∧
          (load_data pr pc).hasCol "pm25" = false)) := by
  unfold load_and_merge_two
  cases h1 : (load_data tr tc).hasCol "datetime" with
  | false =>
    simp [h1]
  | true =>
    cases h2 : (load_data pr pc).hasCol "datetime" with
    | false =>
      cases h3 : (load_data pr pc).hasCol "pm25" with
      | false => simp [h1, h2, h3]
      | true => simp [h1, h2, h3]
    | true => simp [h1, h2]

/-! Claim C5: the baseline trainer's split and predictions artifact. -/

theorem nTestOf_le (n : Nat) : nTestOf n ≤ n := by
  unfold nTestOf
  omega

theorem length_zipWith3 {α β γ δ : Type} (f : α → β → γ → δ) :
    ∀ (as : List α) (bs : List β) (cs : List γ),
      (List.zipWith3 f as bs cs).length = min as.length (min bs.length cs.length)
  | [], bs, cs => by simp [List.zipWith3]
  | a :: as, [], cs => by simp [List.zipWith3]
  | a :: as, b :: bs, [] => by simp [List.zipWith3]
  | a :: as, b :: bs, c :: cs => by
    have hrec := length_zipWith3 f as bs cs
    rw [show List.zipWith3 f (a :: as) (b :: bs) (c :: cs)
      = f a b c :: List.zipWith3 f as bs cs from rfl, List.length_cons, hrec]
    simp only [List.length_cons]
    omega

theorem length_featureRows (df : Table) (featureCols : List String) :
    (featureRows df featureCols).length = df.nRows := by
  unfold featureRows
  rw [List.length_map]
  rfl

/-- C5: `train_baseline_model` splits its rows by the fixed positional
80/20 split with no shuffling — the held-out observations are exactly the
final fifth (rounded up, 20 of 100) of the rows in order — and the
predictions artifact it writes has columns `datetime`, `actual`,
`predicted`, one row per held-out observation, pairing each held-out row's
timestamp with its actual target value and the fitted model's prediction,
and its write replaces any prior artifact contents. -/
theorem C5_train_baseline_model_split_artifact (df : Table) (targetCol : String)
    (featureCols : List String)
    (fit : List (List Cell) → List Cell → (List Cell → Cell))
    (prev : Option Table)
    (hdt : "datetime" ∈ df.header) (htg : targetCol ∈ df.header) :
    writePredictions prev (train_baseline_model df targetCol featureCols fit).2
        = some (train_baseline_model df targetCol featureCols fit).2 ∧
      (train_baseline_model df targetCol featureCols fit).2.header
        = ["datetime", "actual", "predicted"] ∧
      (train_baseline_model df targetCol featureCols fit).2.rows
        = List.zipWith3 (fun d a p => [d, a, p])
            ((df.getCol "datetime").drop (df.nRows - nTestOf df.nRows))
            ((df.getCol targetCol).drop (df.nRows - nTestOf df.nRows))
            (((featureRows df featureCols).drop (df.nRows - nTestOf df.nRows)).map
              (train_baseline_model df targetCol featureCols fit).1) ∧
      (train_baseline_model df targetCol featureCols fit).2.nRows
        = nTestOf df.nRows ∧
      (df.nRows = 100 → (train_baseline_model df targetCol featureCols fit).2.nRows = 20) := by
  have hyl : ((df.getCol targetCol).drop (df.nRows - nTestOf df.nRows)).length
      = nTestOf df.nRows := by
    rw [List.length_drop, getCol_length df targetCol htg]
    have := nTestOf_le df.nRows
    omega
  have hrows : (train_baseline_model df targetCol featureCols fit).2.rows
      = List.zipWith3 (fun d a p => [d, a, p])
          ((df.getCol "datetime").drop (df.nRows - nTestOf df.nRows))
          ((df.getCol targetCol).drop (df.nRows - nTestOf df.nRows))
          (((featureRows df featureCols).drop (df.nRows - nTestOf df.nRows)).map
            (train_baseline_model df targetCol featureCols fit).1) := by
    show List.zipWith3 _
        ((df.getCol "datetime").drop (df.nRows
          - ((df.getCol targetCol).drop (df.nRows - nTestOf df.nRows)).length)) _ _ = _
    rw [hyl]
    rfl
  have hn : (train_baseline_model df targetCol featureCols fit).2.nRows
      = nTestOf df.nRows := by
    show (train_baseline_model df targetCol featureCols fit).2.rows.length = _
    rw [hrows, length_zipWith3, hyl, List.length_map, List.length_drop,
      List.length_drop, getCol_length df "datetime" hdt, length_featureRows]
    have := nTestOf_le df.nRows
    omega
  exact ⟨rfl, rfl, hrows, hn, fun h100 => by rw [hn, h100]; rfl⟩

/-- A concrete 100-row table for exercising the baseline trainer. -/
def dfHundred : Table :=
  { header := ["datetime", "y", "x"],
    rows := (List.range 100).map (fun i =>
      [some (Val.vDt ⟨2024, 1, 1, 0, i⟩),
       some (Val.vNum (2 * (Int.ofNat i))),
       some (Val.vNum (Int.ofNat i))]),
    index := List.range 100 }

/-- Witness for C5 at a concrete 100-row table: the artifact has the three
canonical columns and exactly 20 rows. -/
theorem C5_witness :
    (train_baseline_model dfHundred "y" ["x"]
        (fun _ _ => fun _ => some (Val.vNum 0))).2.header
      = ["datetime", "actual", "predicted"] ∧
    (train_baseline_model dfHundred "y" ["x"]
        (fun _ _ => fun _ => some (Val.vNum 0))).2.nRows = 20 := by
  have h := C5_train_baseline_model_split_artifact dfHundred "y" ["x"]
    (fun _ _ => fun _ => some (Val.vNum 0)) none
    (by decide) (by decide)
  exact ⟨h.2.1, h.2.2.2.2 (by decide)⟩

/-! Claim C2: merged row count, sortedness, contiguous index. -/

theorem mem_mergeHeader_key (a b : List String) (k : String) (hk : k ∈ a) :
    k ∈ mergeHeader a b k := by
  unfold mergeHeader
  apply List.mem_append.mpr
  refine Or.inl (List.mem_map.mpr ⟨k, hk, ?_⟩)
  simp

theorem indexLen_mergeOn (a b : Table) (k : String) (ai bi : Nat)
    (hai : a.colIdx k = some ai) (hbi : b.colIdx k = some bi) :
    (mergeOn a b k).index.length = (mergeOn a b k).rows.length := by
  unfold mergeOn
  rw [hai, hbi]
  exact List.length_range _

theorem nRows_resetIndex (t : Table) : t.resetIndex.nRows = t.nRows := rfl

theorem index_resetIndex (t : Table) : t.resetIndex.index = List.range t.nRows := rfl

theorem getCol_resetIndex (t : Table) (c : String) :
    t.resetIndex.getCol c = t.getCol c := rfl

/-- C2: for traffic and pollution tables that both carry a `datetime`
column after normalization (and share at least one timestamp),
`load_and_merge_two` succeeds and returns a table whose row count is the
number of timestamps present in both inputs counted with many-to-many
multiplicity, whose `datetime` column is non-decreasing, and whose index
is contiguous from zero. -/
theorem C2_merge_count_sorted_reindexed (tr pr : Table) (tc pc : Option Table)
    (hdT : (load_data tr tc).hasCol "datetime" = true)
    (hdP : (load_data pr pc).hasCol "datetime" = true)
    (hov : ∃ v : Val, some v ∈ (load_data tr tc).getCol "datetime" ∧
      some v ∈ (load_data pr pc).getCol "datetime") :
    ∃ m, load_and_merge_two tr pr tc pc = Except.ok m ∧
      m.nRows = matchCount ((load_data tr tc).getCol "datetime")
        ((load_data pr pc).getCol "datetime") ∧
      (m.getCol "datetime").Pairwise (fun a b => dtCellLe a b = true) ∧
      m.index = List.range m.nRows := by
  clear hov
  obtain ⟨ai, hai, -, -⟩ := colIdx_exists_of_mem (load_data tr tc) "datetime"
    ((hasCol_iff_mem _ _).mp hdT)
  obtain ⟨bi, hbi, -, -⟩ := colIdx_exists_of_mem (load_data pr pc) "datetime"
    ((hasCol_iff_mem _ _).mp hdP)
  have hmeq : load_and_merge_two tr pr tc pc
      = Except.ok (finishMerge (load_data tr tc) (load_data pr pc)) := by
    simp [load_and_merge_two, hdT, hdP]
  have hcount : (finishMerge (load_data tr tc) (load_data pr pc)).nRows
      = matchCount ((load_data tr tc).getCol "datetime")
        ((load_data pr pc).getCol "datetime") := by
    show ((mergeOn (load_data tr tc) (load_data pr pc)
      "datetime").sortValues "datetime").resetIndex.nRows = _
    rw [nRows_resetIndex,
      nRows_sortValues _ _ (indexLen_mergeOn _ _ "datetime" ai bi hai hbi)]
    exact nRows_mergeOn _ _ "datetime" ai bi hai hbi
  have hsorted : ((finishMerge (load_data tr tc)
      (load_data pr pc)).getCol "datetime").Pairwise
        (fun a b => dtCellLe a b = true) := by
    have hmem : "datetime" ∈ (mergeOn (load_data tr tc) (load_data pr pc)
        "datetime").header := by
      unfold mergeOn
      rw [hai, hbi]
      exact mem_mergeHeader_key _ _ "datetime" ((hasCol_iff_mem _ _).mp hdT)
    obtain ⟨j, hj, -, -⟩ := colIdx_exists_of_mem _ "datetime" hmem
    show (((mergeOn (load_data tr tc) (load_data pr pc)
      "datetime").sortValues "datetime").resetIndex.getCol "datetime").Pairwise _
    rw [getCol_resetIndex]
    exact getCol_sortValues_pairwise _ "datetime" j hj
  have hidx : (finishMerge (load_data tr tc) (load_data pr pc)).index
      = List.range (finishMerge (load_data tr tc) (load_data pr pc)).nRows := by
    show ((mergeOn (load_data tr tc) (load_data pr pc)
        "datetime").sortValues "datetime").resetIndex.index
      = List.range ((mergeOn (load_data tr tc) (load_data pr pc)
        "datetime").sortValues "datetime").resetIndex.nRows
    rw [nRows_resetIndex, index_resetIndex]
  exact ⟨_, hmeq, hcount, hsorted, hidx⟩

/-- A small traffic table with explicit timestamps for the C2 witness. -/
def trafficC2 : Table :=
  { header := ["datetime", "traffic_volume"],
    rows := [[some (Val.vDt ⟨2024, 1, 1, 0, 0⟩), some (Val.vNum 10)],
             [some (Val.vDt ⟨2024, 1, 1, 1, 0⟩), some (Val.vNum 20)]],
    index := [0, 1] }

/-- A small pollution table with explicit timestamps for the C2 witness. -/
def pollutionC2 : Table :=
  { header := ["datetime", "pm25"],
    rows := [[some (Val.vDt ⟨2024, 1, 1, 0, 0⟩), some (Val.vNum 70)],
             [some (Val.vDt ⟨2024, 1, 1, 1, 0⟩), some (Val.vNum 80)]],
    index := [0, 1] }

/-- Witness for C2 at concrete two-row tables sharing both timestamps. -/
theorem C2_witness :
    ∃ m, load_and_merge_two trafficC2 pollutionC2 none none = Except.ok m ∧
      m.nRows = matchCount ((load_data trafficC2 none).getCol "datetime")
        ((load_data pollutionC2 none).getCol "datetime") ∧
      (m.getCol "datetime").Pairwise (fun a b => dtCellLe a b = true) ∧
      m.index = List.range m.nRows :=
  C2_merge_count_sorted_reindexed trafficC2 pollutionC2 none none
    (by decide) (by decide)
    ⟨Val.vDt ⟨2024, 1, 1, 0, 0⟩, by decide, by decide⟩

/-! Claim C1: positional timestamp alignment of a timestamp-less pollution
table. -/

/-- A traffic CSV with `DateTime`,`Vehicles` columns (three rows). -/
def trafficC1 : Table :=
  { header := ["DateTime", "Vehicles"],
    rows := [[some (Val.vDt ⟨2024, 1, 1, 0, 0⟩), some (Val.vNum 10)],
             [some (Val.vDt ⟨2024, 1, 1, 1, 0⟩), some (Val.vNum 20)],
             [some (Val.vDt ⟨2024, 1, 1, 2, 0⟩), some (Val.vNum 30)]],
    index := [0, 1, 2] }

/-- A pollution CSV carrying only a `PM2.5` column, same row count as the
traffic CSV. -/
def pollutionC1 : Table :=
  { header := ["PM2.5"],
    rows := [[some (Val.vNum 50)], [some (Val.vNum 60)], [some (Val.vNum 70)]],
    index := [0, 1, 2] }

/-- The merge of `trafficC1` and `pollutionC1`: canonical columns, with
each pm25 value paired positionally to the traffic timestamps. -/
def mergedC1 : Table :=
  { header := ["datetime", "traffic_volume", "pm25"],
    rows := [[some (Val.vDt ⟨2024, 1, 1, 0, 0⟩), some (Val.vNum 10), some (Val.vNum 50)],
             [some (Val.vDt ⟨2024, 1, 1, 1, 0⟩), some (Val.vNum 20), some (Val.vNum 60)],
             [some (Val.vDt ⟨2024, 1, 1, 2, 0⟩), some (Val.vNum 30), some (Val.vNum 70)]],
    index := [0, 1, 2] }

/-- C1: for every pollution table lacking `datetime` and every traffic
table with timestamps, the aligner truncates the pollution table to
`min(len(traffic), len(pollution))` rows, copies the traffic timestamps
onto it positionally as a new `datetime` column, and keeps every original
pollution column's values in original row order (truncated); concretely,
`load_and_merge_two` on a `DateTime`,`Vehicles` traffic CSV and a
`PM2.5`-only pollution CSV of equal length yields the canonical
`datetime`, `traffic_volume`, `pm25` table pairing pm25 values to the
traffic timestamps positionally. -/
theorem C1_positional_alignment (T P : Table)
    (hTd : "datetime" ∈ T.header) (hPd : "datetime" ∉ P.header) (hwP : P.Wf) :
    (alignToTraffic T P).nRows = min T.nRows P.nRows ∧
      (alignToTraffic T P).getCol "datetime"
        = (T.getCol "datetime").take (min T.nRows P.nRows) ∧
      (∀ c ∈ P.header, (alignToTraffic T P).getCol c
        = (P.getCol c).take (min T.nRows P.nRows)) ∧
      (alignToTraffic T P).header = P.header ++ ["datetime"] ∧
      load_and_merge_two trafficC1 pollutionC1 none none = Except.ok mergedC1 := by
  have halign : alignToTraffic T P
      = (P.ilocTake (min T.nRows P.nRows)).setCol "datetime"
        ((T.getCol "datetime").take (min T.nRows P.nRows)) := rfl
  have hP'd : "datetime" ∉ (P.ilocTake (min T.nRows P.nRows)).header := hPd
  have hP'w : (P.ilocTake (min T.nRows P.nRows)).Wf :=
    wf_ilocTake P (min T.nRows P.nRows) hwP
  have hvs : ((T.getCol "datetime").take (min T.nRows P.nRows)).length
      = (P.ilocTake (min T.nRows P.nRows)).nRows := by
    rw [List.length_take, getCol_length T "datetime" hTd, nRows_ilocTake]
    omega
  refine ⟨?_, ?_, ?_, ?_, rfl⟩
  · rw [halign, nRows_setCol_fresh _ _ _ hP'd hvs, nRows_ilocTake]
    omega
  · rw [halign, getCol_setCol_fresh_self _ _ _ hP'd hP'w hvs]
  · intro c hc
    have hc' : c ∈ (P.ilocTake (min T.nRows P.nRows)).header := hc
    rw [halign, getCol_setCol_fresh_other _ "datetime" c _ hP'd hc' hP'w hvs,
      getCol_ilocTake P c _ hc]
  · rw [halign, setCol_fresh _ _ _ hP'd]
    rfl

/-- Witness for C1 at concrete tables: a two-row traffic table with
timestamps and the three-row `PM2.5`-only pollution table. -/
theorem C1_witness :
    (alignToTraffic trafficC2 pollutionC1).nRows
        = min trafficC2.nRows pollutionC1.nRows ∧
      (alignToTraffic trafficC2 pollutionC1).getCol "datetime"
        = (trafficC2.getCol "datetime").take (min trafficC2.nRows pollutionC1.nRows) ∧
      (alignToTraffic trafficC2 pollutionC1).getCol "PM2.5"
        = (pollutionC1.getCol "PM2.5").take (min trafficC2.nRows pollutionC1.nRows) := by
  have h := C1_positional_alignment trafficC2 pollutionC1
    (by decide) (by decide) (by decide)
  exact ⟨h.1, h.2.1, h.2.2.1 "PM2.5" (by decide)⟩

/-! Claim C4: presence of both series after merge and forward fill. -/

theorem ffillRows_cons (carry r : List Cell) (rs : List (List Cell)) :
    ffillRows carry (r :: rs)
      = (List.zipWith (fun c l => match c with | some v => some v | none => l) r carry)
        :: ffillRows
            (List.zipWith (fun c l => match c with | some v => some v | none => l) r carry)
            rs := rfl

theorem getD_ffill_comb (r carry : List Cell) (j : Nat)
    (hjr : j < r.length) (hjc : j < carry.length) :
    (List.zipWith (fun c l => match c with | some v => some v | none => l) r carry).getD j none
      = match r.getD j none with
        | some v => some v
        | none => carry.getD j none := by
  rw [List.getD_eq_getElem _ _ (by rw [List.length_zipWith]; omega),
    List.getElem_zipWith, List.getD_eq_getElem _ _ hjr, List.getD_eq_getElem _ _ hjc]

theorem length_ffill_comb (r carry : List Cell) :
    (List.zipWith (fun c l => match c with | some v => some v | none => l) r carry).length
      = min r.length carry.length :=
  List.length_zipWith _ _ _

theorem ffill_comb_isSome (r carry : List Cell) (j : Nat)
    (hjr : j < r.length) (hjc : j < carry.length)
    (hc : (carry.getD j none).isSome = true) :
    ((List.zipWith (fun c l => match c with | some v => some v | none => l)
      r carry).getD j none).isSome = true := by
  rw [getD_ffill_comb r carry j hjr hjc]
  cases hrj : r.getD j none with
  | some v => rfl
  | none => exact hc

theorem ffill_preserves_some (j : Nat) (rows : List (List Cell)) :
    ∀ carry : List Cell, j < carry.length →
      (∀ r ∈ rows, r.length = carry.length) →
      (carry.getD j none).isSome = true →
      ∀ r' ∈ ffillRows carry rows, (r'.getD j none).isSome = true := by
  induction rows with
  | nil =>
    intro carry _ _ _ r' hr'
    simp [ffillRows] at hr'
  | cons r rs ih =>
    intro carry hj hwf hc r' hr'
    rw [ffillRows_cons] at hr'
    have hrlen : r.length = carry.length := hwf r (by simp)
    have hjr : j < r.length := by omega
    have hnewlen :
        (List.zipWith (fun c l => match c with | some v => some v | none => l)
          r carry).length = carry.length := by
      rw [length_ffill_comb]
      omega
    rcases List.mem_cons.mp hr' with heq | htail
    · rw [heq]
      exact ffill_comb_isSome r carry j hjr hj hc
    · refine ih _ (by rw [hnewlen]; exact hj) ?_
        (ffill_comb_isSome r carry j hjr hj hc) r' htail
      intro r2 hr2
      rw [hnewlen]
      exact hwf r2 (by simp [hr2])

/-- C4 (amended): after `load_and_merge_two` followed by `clean_data` — the
dashboard's load path — a column of the merged table is present in every
row provided it is present in the FIRST merged row: forward fill propagates
values downward, so only leading gaps survive; the inner join itself drops
unmatched timestamps.  (As stated, with no proviso on the first row, the
claim is false: see the counterexample.) -/
theorem C4_filled_after_clean (tr pr : Table) (tc pc : Option Table)
    (m : Table) (c : String) (v : Val)
    (hm : load_and_merge_two tr pr tc pc = Except.ok m)
    (hwm : m.Wf) (hc : c ∈ m.header)
    (h0 : (m.getCol c).head? = some (some v)) :
    app_load_data tr pr tc pc = Except.ok (clean_data m) ∧
      ∀ x ∈ (clean_data m).getCol c, x.isSome = true := by
  constructor
  · unfold app_load_data
    rw [hm]
    rfl
  · rcases colIdx_exists_of_mem m c hc with ⟨j, hj, hjlt, -⟩
    have hcj : (clean_data m).colIdx c = some j := hj
    intro x hx
    rw [getCol_eq_map _ c j hcj] at hx
    rcases List.mem_map.mp hx with ⟨r', hr', rfl⟩
    cases hrows : m.rows with
    | nil =>
      rw [getCol_eq_map m c j hj, hrows] at h0
      simp at h0
    | cons r0 rest =>
      rw [getCol_eq_map m c j hj, hrows] at h0
      simp only [List.map_cons, List.head?_cons, Option.some.injEq] at h0
      have hr0len : r0.length = m.header.length :=
        hwm r0 (by rw [hrows]; simp)
      have hjr0 : j < r0.length := by omega
      have hjcarry : j < (List.replicate m.header.length (none : Cell)).length := by
        rw [List.length_replicate]
        exact hjlt
      have hcarrylen : (List.replicate m.header.length (none : Cell)).length
          = m.header.length := List.length_replicate _ _
      have hr'mem : r' ∈ ffillRows (List.replicate m.header.length none) m.rows := by
        have : (clean_data m).rows = ffillRows (List.replicate m.header.length none) m.rows := rfl
        rw [← this]
        exact hr'
      rw [hrows, ffillRows_cons] at hr'mem
      have hnewlen :
          (List.zipWith (fun c l => match c with | some v => some v | none => l)
            r0 (List.replicate m.header.length none)).length = m.header.length := by
        rw [length_ffill_comb, hcarrylen]
        omega
      have hnewsome : ((List.zipWith (fun c l => match c with | some v => some v | none => l)
          r0 (List.replicate m.header.length none)).getD j none).isSome = true := by
        rw [getD_ffill_comb _ _ j hjr0 hjcarry, h0]
        rfl
      rcases List.mem_cons.mp hr'mem with heq | htail
      · rw [heq]
        exact hnewsome
      · refine ffill_preserves_some j rest _ (by rw [hnewlen]; exact hjlt) ?_ hnewsome r' htail
        intro r2 hr2
        rw [hnewlen]
        exact hwm r2 (by rw [hrows]; simp [hr2])

/-- A traffic table whose first row is missing its `traffic_volume`. -/
def trafficC4 : Table :=
  { header := ["datetime", "traffic_volume"],
    rows := [[some (Val.vDt ⟨2024, 1, 1, 0, 0⟩), none],
             [some (Val.vDt ⟨2024, 1, 1, 1, 0⟩), some (Val.vNum 5)]],
    index := [0, 1] }

/-- A pollution table matching both timestamps of `trafficC4`. -/
def pollutionC4 : Table :=
  { header := ["datetime", "pm25"],
    rows := [[some (Val.vDt ⟨2024, 1, 1, 0, 0⟩), some (Val.vNum 7)],
             [some (Val.vDt ⟨2024, 1, 1, 1, 0⟩), some (Val.vNum 8)]],
    index := [0, 1] }

/-- The dashboard load result for `trafficC4`/`pollutionC4`: the leading
missing `traffic_volume` survives the forward fill. -/
def cleanedC4 : Table :=
  { header := ["datetime", "traffic_volume", "pm25"],
    rows := [[some (Val.vDt ⟨2024, 1, 1, 0, 0⟩), none, some (Val.vNum 7)],
             [some (Val.vDt ⟨2024, 1, 1, 1, 0⟩), some (Val.vNum 5), some (Val.vNum 8)]],
    index := [0, 1] }

/-- C4 counterexample: on the dashboard's load path the first merged row
can still be missing `traffic_volume` after cleaning — forward fill cannot
fill a leading gap — so not every row of the result has both series
present. -/
theorem C4_counterexample_leading_gap_survives :
    app_load_data trafficC4 pollutionC4 none none = Except.ok cleanedC4 ∧
      (cleanedC4.getCol "traffic_volume").head? = some none :=
  ⟨rfl, rfl⟩

/-- The merge of `trafficC2` and `pollutionC2`, used by the C4 witness. -/
def mergedC4w : Table :=
  { header := ["datetime", "traffic_volume", "pm25"],
    rows := [[some (Val.vDt ⟨2024, 1, 1, 0, 0⟩), some (Val.vNum 10), some (Val.vNum 70)],
             [some (Val.vDt ⟨2024, 1, 1, 1, 0⟩), some (Val.vNum 20), some (Val.vNum 80)]],
    index := [0, 1] }

/-- Witness for C4 (amended) at concrete tables with a present first row. -/
theorem C4_witness :
    app_load_data trafficC2 pollutionC2 none none = Except.ok (clean_data mergedC4w) ∧
      ∀ x ∈ (clean_data mergedC4w).getCol "traffic_volume", x.isSome = true :=
  C4_filled_after_clean trafficC2 pollutionC2 none none mergedC4w "traffic_volume"
    (Val.vNum 10) rfl (by decide) (by decide) (by decide)

/-! Claim C7: calendar features. -/

/-- A single-row table at 2024-01-15 14:00 (a Monday). -/
def tfC7 : Table :=
  { header := ["datetime"],
    rows := [[some (Val.vDt ⟨2024, 1, 15, 14, 0⟩)]],
    index := [0] }

/-- A table that already carries an `hour` column. -/
def hourClashC7 : Table :=
  { header := ["datetime", "hour"],
    rows := [[some (Val.vDt ⟨2024, 1, 15, 14, 0⟩), some (Val.vNum 99)]],
    index := [0] }

/-- C7 counterexample: on a table that already has an `hour` column,
`add_time_features` overwrites that column's values (99 becomes 14), so it
is not non-destructive to every existing column as claimed. -/
theorem C7_counterexample_overwrites_existing_hour :
    "hour" ∈ hourClashC7.header ∧
      hourClashC7.getCol "hour" = [some (Val.vNum 99)] ∧
      (add_time_features hourClashC7).getCol "hour" = [some (Val.vNum 14)] := by
  refine ⟨by decide, rfl, rfl⟩

/-- C7 (amended): on every well-formed table with a `datetime` column and
none of the three feature columns already present, `add_time_features`
appends `hour`, `day_of_week` and `month` columns derived cell-wise from
the datetime field, leaves every existing column's values unchanged, and
the derived values satisfy hour in 0-23, day_of_week in 0-6 (Monday = 0)
and month in 1-12 for in-range timestamps; concretely, on the 2024-01-15
14:00 row (a Monday) it yields hour 14, day_of_week 0, month 1.  (Without
the no-pre-existing-feature-column proviso the claim fails: those columns
would be overwritten.) -/
theorem C7_add_time_features (df : Table)
    (hw : df.Wf) (hdt : "datetime" ∈ df.header)
    (hh : "hour" ∉ df.header) (hd : "day_of_week" ∉ df.header)
    (hm : "month" ∉ df.header)
    (hvd : ∀ x ∈ df.getCol "datetime", ∃ t : Timestamp,
      x = some (Val.vDt t) ∧ 1 ≤ t.month ∧ t.month ≤ 12 ∧ t.hour < 24) :
    (add_time_features df).header = df.header ++ ["hour", "day_of_week", "month"] ∧
      (∀ c ∈ df.header, (add_time_features df).getCol c = df.getCol c) ∧
      (add_time_features df).getCol "hour" = (df.getCol "datetime").map cellHour ∧
      (add_time_features df).getCol "day_of_week"
        = (df.getCol "datetime").map cellDayOfWeek ∧
      (add_time_features df).getCol "month" = (df.getCol "datetime").map cellMonth ∧
      (∀ x ∈ (add_time_features df).getCol "hour",
        ∃ k, x = some (Val.vNum (Int.ofNat k)) ∧ k < 24) ∧
      (∀ x ∈ (add_time_features df).getCol "day_of_week",
        ∃ k, x = some (Val.vNum (Int.ofNat k)) ∧ k < 7) ∧
      (∀ x ∈ (add_time_features df).getCol "month",
        ∃ k, x = some (Val.vNum (Int.ofNat k)) ∧ 1 ≤ k ∧ k ≤ 12) ∧
      add_time_features tfC7
        = { header := ["datetime", "hour", "day_of_week", "month"],
            rows := [[some (Val.vDt ⟨2024, 1, 15, 14, 0⟩), some (Val.vNum 14),
              some (Val.vNum 0), some (Val.vNum 1)]],
            index := [0] } := by
  have hlen0 : ((df.getCol "datetime").map cellHour).length = df.nRows := by
    rw [List.length_map, getCol_length df "datetime" hdt]
  have heq1 : add_time_features df
      = ((df.setCol "hour" ((df.getCol "datetime").map cellHour)).setCol "day_of_week"
          (((df.setCol "hour" ((df.getCol "datetime").map cellHour)).getCol
            "datetime").map cellDayOfWeek)).setCol "month"
          ((((df.setCol "hour" ((df.getCol "datetime").map cellHour)).setCol "day_of_week"
            (((df.setCol "hour" ((df.getCol "datetime").map cellHour)).getCol
              "datetime").map cellDayOfWeek)).getCol "datetime").map cellMonth) := rfl
  -- stage 1 facts
  have h1w : (df.setCol "hour" ((df.getCol "datetime").map cellHour)).Wf :=
    wf_setCol_fresh df "hour" _ hh hw
  have h1hd : (df.setCol "hour" ((df.getCol "datetime").map cellHour)).header
      = df.header ++ ["hour"] := by
    rw [setCol_fresh df "hour" _ hh]
  have h1n : (df.setCol "hour" ((df.getCol "datetime").map cellHour)).nRows = df.nRows :=
    nRows_setCol_fresh df "hour" _ hh hlen0
  have h1keep : ∀ c ∈ df.header,
      (df.setCol "hour" ((df.getCol "datetime").map cellHour)).getCol c = df.getCol c :=
    fun c hc => getCol_setCol_fresh_other df "hour" c _ hh hc hw hlen0
  have h1hour : (df.setCol "hour" ((df.getCol "datetime").map cellHour)).getCol "hour"
      = (df.getCol "datetime").map cellHour :=
    getCol_setCol_fresh_self df "hour" _ hh hw hlen0
  have h1dt : (df.setCol "hour" ((df.getCol "datetime").map cellHour)).getCol "datetime"
      = df.getCol "datetime" := h1keep "datetime" hdt
  -- stage 2 facts
  have h2fresh : "day_of_week" ∉ (df.setCol "hour"
      ((df.getCol "datetime").map cellHour)).header := by
    rw [h1hd]
    intro hmem
    rcases List.mem_append.mp hmem with h | h
    · exact hd h
    · simp at h
  have hlen1 : (((df.setCol "hour" ((df.getCol "datetime").map cellHour)).getCol
      "datetime").map cellDayOfWeek).length
      = (df.setCol "hour" ((df.getCol "datetime").map cellHour)).nRows := by
    rw [h1dt, List.length_map, getCol_length df "datetime" hdt, h1n]
  have h2w : ((df.setCol "hour" ((df.getCol "datetime").map cellHour)).setCol "day_of_week"
      (((df.setCol "hour" ((df.getCol "datetime").map cellHour)).getCol
        "datetime").map cellDayOfWeek)).Wf :=
    wf_setCol_fresh _ "day_of_week" _ h2fresh h1w
  have h2hd : ((df.setCol "hour" ((df.getCol "datetime").map cellHour)).setCol "day_of_week"
      (((df.setCol "hour" ((df.getCol "datetime").map cellHour)).getCol
        "datetime").map cellDayOfWeek)).header
      = df.header ++ ["hour", "day_of_week"] := by
    rw [setCol_fresh _ "day_of_week" _ h2fresh]
    show (df.setCol "hour" ((df.getCol "datetime").map cellHour)).header
      ++ ["day_of_week"] = _
    rw [h1hd, List.append_assoc]
    rfl
  have h2n : ((df.setCol "hour" ((df.getCol "datetime").map cellHour)).setCol "day_of_week"
      (((df.setCol "hour" ((df.getCol "datetime").map cellHour)).getCol
        "datetime").map cellDayOfWeek)).nRows = df.nRows := by
    rw [nRows_setCol_fresh _ "day_of_week" _ h2fresh hlen1, h1n]
  have h2keep : ∀ c ∈ df.header,
      ((df.setCol "hour" ((df.getCol "datetime").map cellHour)).setCol "day_of_week"
        (((df.setCol "hour" ((df.getCol "datetime").map cellHour)).getCol
          "datetime").map cellDayOfWeek)).getCol c = df.getCol c := by
    intro c hc
    have hc1 : c ∈ (df.setCol "hour" ((df.getCol "datetime").map cellHour)).header := by
      rw [h1hd]
      exact List.mem_append.mpr (Or.inl hc)
    rw [getCol_setCol_fresh_other _ "day_of_week" c _ h2fresh hc1 h1w hlen1]
    exact h1keep c hc
  have h2hour : ((df.setCol "hour" ((df.getCol "datetime").map cellHour)).setCol
      "day_of_week" (((df.setCol "hour" ((df.getCol "datetime").map cellHour)).getCol
        "datetime").map cellDayOfWeek)).getCol "hour"
      = (df.getCol "datetime").map cellHour := by
    have hc1 : "hour" ∈ (df.setCol "hour" ((df.getCol "datetime").map cellHour)).header := by
      rw [h1hd]
      exact List.mem_append.mpr (Or.inr (by simp))
    rw [getCol_setCol_fresh_other _ "day_of_week" "hour" _ h2fresh hc1 h1w hlen1]
    exact h1hour
  have h2dow : ((df.setCol "hour" ((df.getCol "datetime").map cellHour)).setCol
      "day_of_week" (((df.setCol "hour" ((df.getCol "datetime").map cellHour)).getCol
        "datetime").map cellDayOfWeek)).getCol "day_of_week"
      = (df.getCol "datetime").map cellDayOfWeek := by
    rw [getCol_setCol_fresh_self _ "day_of_week" _ h2fresh h1w hlen1, h1dt]
  have h2dt : ((df.setCol "hour" ((df.getCol "datetime").map cellHour)).setCol
      "day_of_week" (((df.setCol "hour" ((df.getCol "datetime").map cellHour)).getCol
        "datetime").map cellDayOfWeek)).getCol "datetime" = df.getCol "datetime" :=
    h2keep "datetime" hdt
  -- stage 3 facts
  have h3fresh : "month" ∉ ((df.setCol "hour" ((df.getCol "datetime").map
      cellHour)).setCol "day_of_week" (((df.setCol "hour" ((df.getCol
        "datetime").map cellHour)).getCol "datetime").map cellDayOfWeek)).header := by
    rw [h2hd]
    intro hmem
    rcases List.mem_append.mp hmem with h | h
    · exact hm h
    · simp at h
  have hlen2 : ((((df.setCol "hour" ((df.getCol "datetime").map cellHour)).setCol
      "day_of_week" (((df.setCol "hour" ((df.getCol "datetime").map cellHour)).getCol
        "datetime").map cellDayOfWeek)).getCol "datetime").map cellMonth).length
      = ((df.setCol "hour" ((df.getCol "datetime").map cellHour)).setCol "day_of_week"
        (((df.setCol "hour" ((df.getCol "datetime").map cellHour)).getCol
          "datetime").map cellDayOfWeek)).nRows := by
    rw [h2dt, List.length_map, getCol_length df "datetime" hdt, h2n]
  refine ⟨?_, ?_, ?_, ?_, ?_, ?_, ?_, ?_, rfl⟩
  · rw [heq1, setCol_fresh _ "month" _ h3fresh]
    show ((df.setCol "hour" ((df.getCol "datetime").map cellHour)).setCol "day_of_week"
      (((df.setCol "hour" ((df.getCol "datetime").map cellHour)).getCol
        "datetime").map cellDayOfWeek)).header ++ ["month"] = _
    rw [h2hd, List.append_assoc]
    rfl
  · intro c hc
    have hc2 : c ∈ ((df.setCol "hour" ((df.getCol "datetime").map cellHour)).setCol
        "day_of_week" (((df.setCol "hour" ((df.getCol "datetime").map cellHour)).getCol
          "datetime").map cellDayOfWeek)).header := by
      rw [h2hd]
      exact List.mem_append.mpr (Or.inl hc)
    rw [heq1, getCol_setCol_fresh_other _ "month" c _ h3fresh hc2 h2w hlen2]
    exact h2keep c hc
  · have hc2 : "hour" ∈ ((df.setCol "hour" ((df.getCol "datetime").map cellHour)).setCol
        "day_of_week" (((df.setCol "hour" ((df.getCol "datetime").map cellHour)).getCol
          "datetime").map cellDayOfWeek)).header := by
      rw [h2hd]
      exact List.mem_append.mpr (Or.inr (by simp))
    rw [heq1, getCol_setCol_fresh_other _ "month" "hour" _ h3fresh hc2 h2w hlen2]
    exact h2hour
  · have hc2 : "day_of_week" ∈ ((df.setCol "hour" ((df.getCol "datetime").map
        cellHour)).setCol "day_of_week" (((df.setCol "hour" ((df.getCol "datetime").map
          cellHour)).getCol "datetime").map cellDayOfWeek)).header := by
      rw [h2hd]
      exact List.mem_append.mpr (Or.inr (by simp))
    rw [heq1, getCol_setCol_fresh_other _ "month" "day_of_week" _ h3fresh hc2 h2w hlen2]
    exact h2dow
  · rw [heq1, getCol_setCol_fresh_self _ "month" _ h3fresh h2w hlen2, h2dt]
  · intro x hx
    have hcol : (add_time_features df).getCol "hour" = (df.getCol "datetime").map cellHour := by
      have hc2 : "hour" ∈ ((df.setCol "hour" ((df.getCol "datetime").map cellHour)).setCol
          "day_of_week" (((df.setCol "hour" ((df.getCol "datetime").map cellHour)).getCol
            "datetime").map cellDayOfWeek)).header := by
        rw [h2hd]
        exact List.mem_append.mpr (Or.inr (by simp))
      rw [heq1, getCol_setCol_fresh_other _ "month" "hour" _ h3fresh hc2 h2w hlen2]
      exact h2hour
    rw [hcol] at hx
    rcases List.mem_map.mp hx with ⟨y, hy, rfl⟩
    rcases hvd y hy with ⟨t, rfl, -, -, hhr⟩
    exact ⟨t.hour, rfl, hhr⟩
  · intro x hx
    have hcol : (add_time_features df).getCol "day_of_week"
        = (df.getCol "datetime").map cellDayOfWeek := by
      have hc2 : "day_of_week" ∈ ((df.setCol "hour" ((df.getCol "datetime").map
          cellHour)).setCol "day_of_week" (((df.setCol "hour" ((df.getCol "datetime").map
            cellHour)).getCol "datetime").map cellDayOfWeek)).header := by
        rw [h2hd]
        exact List.mem_append.mpr (Or.inr (by simp))
      rw [heq1, getCol_setCol_fresh_other _ "month" "day_of_week" _ h3fresh hc2 h2w hlen2]
      exact h2dow
    rw [hcol] at hx
    rcases List.mem_map.mp hx with ⟨y, hy, rfl⟩
    rcases hvd y hy with ⟨t, rfl, -, -, -⟩
    refine ⟨dayOfWeekMonday0 t.year t.month t.day, rfl, ?_⟩
    exact Nat.mod_lt _ (by omega)
  · intro x hx
    have hcol : (add_time_features df).getCol "month"
        = (df.getCol "datetime").map cellMonth := by
      rw [heq1, getCol_setCol_fresh_self _ "month" _ h3fresh h2w hlen2, h2dt]
    rw [hcol] at hx
    rcases List.mem_map.mp hx with ⟨y, hy, rfl⟩
    rcases hvd y hy with ⟨t, rfl, hm1, hm2, -⟩
    exact ⟨t.month, rfl, hm1, hm2⟩

/-- Witness for C7 (amended) at the concrete Monday-afternoon table. -/
theorem C7_witness :
    (add_time_features tfC7).header = tfC7.header ++ ["hour", "day_of_week", "month"] ∧
      (add_time_features tfC7).getCol "datetime" = tfC7.getCol "datetime" ∧
      (add_time_features tfC7).getCol "hour" = (tfC7.getCol "datetime").map cellHour := by
  have h := C7_add_time_features tfC7 (by decide) (by decide) (by decide)
    (by decide) (by decide)
    (by intro x hx
        refine ⟨⟨2024, 1, 15, 14, 0⟩, ?_, by decide, by decide, by decide⟩
        have : tfC7.getCol "datetime" = [some (Val.vDt ⟨2024, 1, 15, 14, 0⟩)] := rfl
        rw [this] at hx
        simpa using hx)
  exact ⟨h.1, h.2.1 "datetime" (by decide), h.2.2.1⟩

/-! Claims C6 and C10: lag features and the dropna behavior. -/

/-- A 5-row table with a pre-existing missing value in column `y` at row 3
(rows otherwise complete). -/
def lagC10 : Table :=
  { header := ["x", "y"],
    rows := [[some (Val.vNum 1), some (Val.vNum 11)],
             [some (Val.vNum 2), some (Val.vNum 12)],
             [some (Val.vNum 3), some (Val.vNum 13)],
             [some (Val.vNum 4), none],
             [some (Val.vNum 5), some (Val.vNum 15)]],
    index := [0, 1, 2, 3, 4] }

/-- C10: `add_lag_features` ends with `df.dropna()`, which drops every row
containing a missing value in ANY column — not only rows made incomplete by
the new lag columns: no row containing a missing value ever appears in the
result; concretely, on the 5-row table with a pre-existing missing `y` at
row 3 and `lags=(1,)`, two rows are dropped (the first row and row 3), so
more than `max(lags) = 1` rows are dropped. -/
theorem C10_dropna_drops_any_missing (df : Table) (cols : List String)
    (lags : List Nat) (r : List Cell) (hnone : none ∈ r) :
    r ∉ (add_lag_features df cols lags).rows ∧
      (add_lag_features lagC10 ["x"] [1]).nRows = 3 ∧
      lagC10.nRows = 5 := by
  refine ⟨?_, rfl, rfl⟩
  intro hr
  have hmap : (add_lag_features df cols lags).rows
      = (((addLagCols df cols lags).index.zip
          (addLagCols df cols lags).rows).filter
            (fun p => !(p.2.contains none))).map Prod.snd := rfl
  rw [hmap] at hr
  rcases List.mem_map.mp hr with ⟨pr, hpr, rfl⟩
  have hpred := (List.mem_filter.mp hpr).2
  have hcont : pr.2.contains none = false := by
    cases hcc : pr.2.contains none with
    | false => rfl
    | true =>
      rw [hcc] at hpred
      simp at hpred
  have helem : pr.2.contains none = true := by
    rw [List.contains_eq_any_beq]
    exact List.any_eq_true.mpr ⟨none, hnone, beq_self_eq_true none⟩
  rw [helem] at hcont
  exact Bool.noConfusion hcont

/-- Witness for C10: the extended row 3 of the concrete table (missing `y`,
present lag value) does not survive `add_lag_features`. -/
theorem C10_witness :
    [some (Val.vNum 4), none, some (Val.vNum 3)]
        ∉ (add_lag_features lagC10 ["x"] [1]).rows ∧
      (add_lag_features lagC10 ["x"] [1]).nRows = 3 ∧
      lagC10.nRows = 5 :=
  C10_dropna_drops_any_missing lagC10 ["x"] [1]
    [some (Val.vNum 4), none, some (Val.vNum 3)] (by decide)

theorem shiftCol_length (lag : Nat) (xs : List Cell) :
    (shiftCol lag xs).length = xs.length := by
  unfold shiftCol
  rw [List.length_append, List.length_replicate, List.length_take]
  omega

theorem shiftCol_getD_lt (lag : Nat) (xs : List Cell) (i : Nat)
    (hi : i < xs.length) (hl : i < lag) :
    (shiftCol lag xs).getD i none = none := by
  unfold shiftCol
  rw [List.getD_append _ _ _ i (by rw [List.length_replicate]; omega),
    List.getD_eq_getElem _ _ (by rw [List.length_replicate]; omega),
    List.getElem_replicate]

theorem shiftCol_getD_ge (lag : Nat) (xs : List Cell) (i : Nat)
    (hi : i < xs.length) (hl : lag ≤ i) :
    (shiftCol lag xs).getD i none = xs.getD (i - lag) none := by
  unfold shiftCol
  rw [List.getD_append_right _ _ _ _ (by rw [List.length_replicate]; omega),
    List.length_replicate]
  have hmin : min lag xs.length = lag := by omega
  rw [hmin, List.getD_eq_getElem _ _ (by rw [List.length_take]; omega),
    List.getElem_take, List.getD_eq_getElem _ _ (by omega)]

/-- `max(lags)` as computed over the caller-supplied lag list. -/
def maxLagOf (lags : List Nat) : Nat := lags.foldr max 0

theorem lt_maxLagOf_iff (i : Nat) (lags : List Nat) :
    i < maxLagOf lags ↔ ∃ l ∈ lags, i < l := by
  induction lags with
  | nil => simp [maxLagOf]
  | cons a as ih =>
    unfold maxLagOf at ih ⊢
    rw [List.foldr_cons]
    constructor
    · intro h
      rw [lt_max_iff] at h
      rcases h with h | h
      · exact ⟨a, by simp, h⟩
      · rcases ih.mp h with ⟨l, hl, hil⟩
        exact ⟨l, by simp [hl], hil⟩
    · rintro ⟨l, hl, hil⟩
      rw [lt_max_iff]
      rcases List.mem_cons.mp hl with rfl | hl2
      · exact Or.inl hil
      · exact Or.inr (ih.mpr ⟨l, hl2, hil⟩)

theorem le_maxLagOf (l : Nat) (lags : List Nat) (hl : l ∈ lags) :
    l ≤ maxLagOf lags := by
  induction lags with
  | nil => simp at hl
  | cons a as ih =>
    unfold maxLagOf at ih ⊢
    rw [List.foldr_cons]
    rcases List.mem_cons.mp hl with rfl | hl2
    · exact le_max_left _ _
    · exact le_trans (ih hl2) (le_max_right _ _)

/-- The (column, lag) pairs of the nested loops, in iteration order. -/
def lagPairs (cols : List String) (lags : List Nat) : List (String × Nat) :=
  (cols.map (fun c => lags.map (fun l => (c, l)))).flatten

/-- One iteration of the lag-column loop body. -/
def lagStep (d : Table) (p : String × Nat) : Table :=
  d.setCol (lagName p.1 p.2) (shiftCol p.2 (d.getCol p.1))

/-- The new column names produced by `add_lag_features`, in order. -/
def lagNames (cols : List String) (lags : List Nat) : List String :=
  (cols.map (fun c => lags.map (lagName c))).flatten

theorem addLagCols_eq_foldl (df : Table) (cols : List String) (lags : List Nat) :
    addLagCols df cols lags = (lagPairs cols lags).foldl lagStep df := by
  unfold addLagCols lagPairs
  induction cols generalizing df with
  | nil => rfl
  | cons c cs ih =>
    rw [List.map_cons, List.flatten_cons, List.foldl_cons, List.foldl_append,
      List.foldl_map]
    exact ih _

theorem lagNames_eq_pairs_map (cols : List String) (lags : List Nat) :
    lagNames cols lags = (lagPairs cols lags).map (fun p => lagName p.1 p.2) := by
  unfold lagNames lagPairs
  rw [List.map_flatten, List.map_map]
  congr 1
  apply List.map_congr_left
  intro c _
  show List.map (lagName c) lags
    = List.map (fun p : String × Nat => lagName p.1 p.2) (lags.map (fun l => (c, l)))
  rw [List.map_map]
  rfl

theorem mem_lagPairs (cols : List String) (lags : List Nat) (p : String × Nat) :
    p ∈ lagPairs cols lags ↔ p.1 ∈ cols ∧ p.2 ∈ lags := by
  unfold lagPairs
  rw [List.mem_flatten]
  constructor
  · rintro ⟨gl, hgl, hp⟩
    rcases List.mem_map.mp hgl with ⟨c, hc, rfl⟩
    rcases List.mem_map.mp hp with ⟨l, hl, rfl⟩
    exact ⟨hc, hl⟩
  · rintro ⟨h1, h2⟩
    refine ⟨lags.map (fun l => (p.1, l)), List.mem_map.mpr ⟨p.1, h1, rfl⟩, ?_⟩
    exact List.mem_map.mpr ⟨p.2, h2, Prod.mk.eta⟩

theorem index_setCol (t : Table) (c : String) (vs : List Cell) :
    (t.setCol c vs).index = t.index := by
  unfold Table.setCol
  cases t.colIdx c <;> rfl

/-- Full characterization of the lag-column loop: the processed pairs
append their columns on the right, existing columns and the index are
untouched, each new column holds the shifted source column, and each row
gains the shifted cells positionally. -/
theorem lagPairs_foldl_spec (ps : List (String × Nat)) :
    ∀ df : Table, df.Wf →
      (∀ p ∈ ps, p.1 ∈ df.header) →
      (∀ p ∈ ps, lagName p.1 p.2 ∉ df.header) →
      (ps.map (fun p => lagName p.1 p.2)).Nodup →
      (ps.foldl lagStep df).header
          = df.header ++ ps.map (fun p => lagName p.1 p.2) ∧
        (ps.foldl lagStep df).index = df.index ∧
        (ps.foldl lagStep df).nRows = df.nRows ∧
        (ps.foldl lagStep df).Wf ∧
        (∀ c ∈ df.header, (ps.foldl lagStep df).getCol c = df.getCol c) ∧
        (∀ q ∈ ps, (ps.foldl lagStep df).getCol (lagName q.1 q.2)
          = shiftCol q.2 (df.getCol q.1)) ∧
        (∀ i, i < df.nRows → (ps.foldl lagStep df).rows.getD i []
          = df.rows.getD i []
            ++ ps.map (fun p => (shiftCol p.2 (df.getCol p.1)).getD i none)) := by
  induction ps with
  | nil =>
    intro df hw _ _ _
    refine ⟨by simp, rfl, rfl, hw, fun c _ => rfl, by simp, ?_⟩
    intro i _
    simp
  | cons p rest ih =>
    intro df hw hcols hfresh hnodup
    have hp1 : p.1 ∈ df.header := hcols p (by simp)
    have hpfresh : lagName p.1 p.2 ∉ df.header := hfresh p (by simp)
    have hvslen : (shiftCol p.2 (df.getCol p.1)).length = df.nRows := by
      rw [shiftCol_length, getCol_length df p.1 hp1]
    have h1hd : (lagStep df p).header = df.header ++ [lagName p.1 p.2] := by
      unfold lagStep
      rw [setCol_fresh _ _ _ hpfresh]
    have h1w : (lagStep df p).Wf := wf_setCol_fresh _ _ _ hpfresh hw
    have h1n : (lagStep df p).nRows = df.nRows :=
      nRows_setCol_fresh _ _ _ hpfresh hvslen
    have h1idx : (lagStep df p).index = df.index := index_setCol _ _ _
    have h1keep : ∀ c ∈ df.header, (lagStep df p).getCol c = df.getCol c :=
      fun c hc => getCol_setCol_fresh_other _ _ c _ hpfresh hc hw hvslen
    have h1self : (lagStep df p).getCol (lagName p.1 p.2)
        = shiftCol p.2 (df.getCol p.1) :=
      getCol_setCol_fresh_self _ _ _ hpfresh hw hvslen
    have hrowlen : df.rows.length = df.nRows := rfl
    have h1rows : ∀ i, i < df.nRows → (lagStep df p).rows.getD i []
        = df.rows.getD i [] ++ [(shiftCol p.2 (df.getCol p.1)).getD i none] := by
      intro i hi
      unfold lagStep
      rw [setCol_fresh _ _ _ hpfresh]
      show ((df.rows.zip (shiftCol p.2 (df.getCol p.1))).map
        (fun q => q.1 ++ [q.2])).getD i [] = _
      have hlen : ((df.rows.zip (shiftCol p.2 (df.getCol p.1))).map
          (fun q => q.1 ++ [q.2])).length = df.nRows := by
        rw [List.length_map, List.length_zip, hvslen, hrowlen]
        exact Nat.min_self _
      rw [List.getD_eq_getElem _ _ (by rw [hlen]; exact hi),
        List.getElem_map, List.getElem_zip,
        List.getD_eq_getElem df.rows _ (by omega),
        List.getD_eq_getElem _ _ (by rw [hvslen]; exact hi)]
    have honodup := hnodup
    rw [List.map_cons] at honodup
    rcases List.nodup_cons.mp honodup with ⟨hpnotin, hnodup'⟩
    have hcols' : ∀ q ∈ rest, q.1 ∈ (lagStep df p).header := by
      intro q hq
      rw [h1hd]
      exact List.mem_append.mpr (Or.inl (hcols q (by simp [hq])))
    have hfresh' : ∀ q ∈ rest, lagName q.1 q.2 ∉ (lagStep df p).header := by
      intro q hq
      rw [h1hd]
      intro hmem
      rcases List.mem_append.mp hmem with h | h
      · exact hfresh q (by simp [hq]) h
      · simp only [List.mem_singleton] at h
        exact hpnotin (h ▸ List.mem_map.mpr ⟨q, hq, rfl⟩)
    have ihres := ih (lagStep df p) h1w hcols' hfresh' hnodup'
    have hfold : (p :: rest).foldl lagStep df = rest.foldl lagStep (lagStep df p) :=
      List.foldl_cons _ _
    refine ⟨?_, ?_, ?_, ?_, ?_, ?_, ?_⟩
    · rw [hfold, ihres.1, h1hd, List.map_cons, List.append_assoc]
      rfl
    · rw [hfold, ihres.2.1, h1idx]
    · rw [hfold, ihres.2.2.1, h1n]
    · rw [hfold]
      exact ihres.2.2.2.1
    · intro c hc
      have hc1 : c ∈ (lagStep df p).header := by
        rw [h1hd]
        exact List.mem_append.mpr (Or.inl hc)
      rw [hfold, ihres.2.2.2.2.1 c hc1]
      exact h1keep c hc
    · intro q hq
      rcases List.mem_cons.mp hq with rfl | hq2
      · have hn1 : lagName q.1 q.2 ∈ (lagStep df q).header := by
          rw [h1hd]
          exact List.mem_append.mpr (Or.inr (by simp))
        rw [hfold, ihres.2.2.2.2.1 _ hn1]
        exact h1self
      · rw [hfold, ihres.2.2.2.2.2.1 q hq2, h1keep q.1 (hcols q (by simp [hq2]))]
    · intro i hi
      have hi1 : i < (lagStep df p).nRows := by rw [h1n]; exact hi
      rw [hfold, ihres.2.2.2.2.2.2 i hi1, h1rows i hi, List.append_assoc,
        List.singleton_append, List.map_cons]
      congr 1
      congr 1
      apply List.map_congr_left
      intro q hq
      rw [h1keep q.1 (hcols q (by simp [hq]))]

theorem zip_filter_map_snd {α β : Type} (q : β → Bool) :
    ∀ (idx : List α) (rows : List β), idx.length = rows.length →
      ((idx.zip rows).filter (fun pr => q pr.2)).map Prod.snd = rows.filter q := by
  intro idx
  induction idx with
  | nil =>
    intro rows h
    cases rows with
    | nil => rfl
    | cons r rs => simp at h
  | cons a as ih =>
    intro rows h
    cases rows with
    | nil => simp at h
    | cons r rs =>
      rw [List.zip_cons_cons, List.filter_cons, List.filter_cons]
      by_cases hq : q r = true
      · simp only [hq, if_true, List.map_cons]
        rw [ih rs (by simpa using h)]
      · simp only [hq, Bool.false_eq_true, if_false]
        rw [ih rs (by simpa using h)]

theorem filter_eq_drop {α : Type} (p : α → Bool) :
    ∀ (l : List α) (K : Nat), K ≤ l.length →
      (∀ i, (h : i < l.length) → i < K → p l[i] = false) →
      (∀ i, (h : i < l.length) → K ≤ i → p l[i] = true) →
      l.filter p = l.drop K := by
  intro l
  induction l with
  | nil =>
    intro K _ _ _
    simp
  | cons a t ih =>
    intro K hK hlt hge
    cases K with
    | zero =>
      rw [List.drop_zero]
      rw [List.filter_eq_self.mpr]
      intro x hx
      rcases List.mem_iff_getElem.mp hx with ⟨i, hi, rfl⟩
      exact hge i hi (Nat.zero_le i)
    | succ k =>
      have ha : p a = false := hlt 0 (by simp) (Nat.succ_pos k)
      rw [List.filter_cons]
      simp only [ha, Bool.false_eq_true, if_false]
      rw [List.drop_succ_cons]
      refine ih k (by simpa using hK) ?_ ?_
      · intro i hi hik
        have := hlt (i + 1) (by simpa using hi) (by omega)
        simpa using this
      · intro i hi hik
        have := hge (i + 1) (by simpa using hi) (by omega)
        simpa using this

theorem contains_none_true_of_mem (l : List Cell) (h : (none : Cell) ∈ l) :
    l.contains none = true := by
  rw [List.contains_eq_any_beq]
  exact List.any_eq_true.mpr ⟨none, h, beq_self_eq_true none⟩

theorem mem_of_contains_none_true (l : List Cell) (h : l.contains none = true) :
    (none : Cell) ∈ l := by
  rw [List.contains_eq_any_beq] at h
  rcases List.any_eq_true.mp h with ⟨x, hx, hbx⟩
  rw [beq_iff_eq] at hbx
  exact hbx ▸ hx

/-- A 5-row table with no missing values. -/
def lagC6 : Table :=
  { header := ["x", "y"],
    rows := [[some (Val.vNum 1), some (Val.vNum 11)],
             [some (Val.vNum 2), some (Val.vNum 12)],
             [some (Val.vNum 3), some (Val.vNum 13)],
             [some (Val.vNum 4), some (Val.vNum 14)],
             [some (Val.vNum 5), some (Val.vNum 15)]],
    index := [0, 1, 2, 3, 4] }

/-- C6 counterexample: with a pre-existing missing value in an unrelated
column (row 3 of `lagC10`), `add_lag_features(df, ['x'], lags=(1,))` on a
5-row table drops TWO rows, not exactly the first `max(lags) = 1` row as
the claim states. -/
theorem C6_counterexample_extra_row_dropped :
    (add_lag_features lagC10 ["x"] [1]).nRows = 3 ∧
      lagC10.nRows - 1 = 4 ∧
      (add_lag_features lagC10 ["x"] [1]).nRows ≠ lagC10.nRows - 1 := by
  exact ⟨rfl, rfl, by decide⟩

/-- C6 (amended): for every well-formed table, caller-supplied present
columns and lag offsets (fresh, pairwise-distinct generated names), and —
the proviso the counterexample forces — no pre-existing missing value,
`add_lag_features` appends one column per (column, lag) pair named
`col_lagN` whose value at row `i` is the source column's value at row
`i − lag`; the rows dropped are exactly the first `max(lags)` rows (all
rows when `max(lags)` exceeds the row count), and the remaining rows keep
their order.  With a pre-existing missing value, additional rows are
dropped (C10). -/
theorem C6_lag_features (df : Table) (cols : List String) (lags : List Nat)
    (hw : df.Wf) (hil : df.index.length = df.nRows)
    (hcols : ∀ c ∈ cols, c ∈ df.header)
    (hfresh : ∀ nm ∈ lagNames cols lags, nm ∉ df.header)
    (hnodup : (lagNames cols lags).Nodup)
    (hnomiss : ∀ r ∈ df.rows, (none : Cell) ∉ r)
    (hcne : cols ≠ []) :
    (add_lag_features df cols lags).header = df.header ++ lagNames cols lags ∧
      (∀ c ∈ cols, ∀ l ∈ lags, (addLagCols df cols lags).getCol (lagName c l)
        = shiftCol l (df.getCol c)) ∧
      (∀ c ∈ cols, ∀ l ∈ lags, ∀ i, l ≤ i → i < df.nRows →
        ((addLagCols df cols lags).getCol (lagName c l)).getD i none
          = (df.getCol c).getD (i - l) none) ∧
      (add_lag_features df cols lags).rows
        = (addLagCols df cols lags).rows.drop (min (maxLagOf lags) df.nRows) ∧
      (add_lag_features df cols lags).nRows
        = df.nRows - min (maxLagOf lags) df.nRows := by
  have hcols' : ∀ p ∈ lagPairs cols lags, p.1 ∈ df.header := by
    intro p hp
    exact hcols p.1 ((mem_lagPairs cols lags p).mp hp).1
  have hfresh' : ∀ p ∈ lagPairs cols lags, lagName p.1 p.2 ∉ df.header := by
    intro p hp
    refine hfresh (lagName p.1 p.2) ?_
    rw [lagNames_eq_pairs_map]
    exact List.mem_map.mpr ⟨p, hp, rfl⟩
  have hnodup' : ((lagPairs cols lags).map (fun p => lagName p.1 p.2)).Nodup := by
    rw [← lagNames_eq_pairs_map]
    exact hnodup
  have spec := lagPairs_foldl_spec (lagPairs cols lags) df hw hcols' hfresh' hnodup'
  have hfold : addLagCols df cols lags = (lagPairs cols lags).foldl lagStep df :=
    addLagCols_eq_foldl df cols lags
  -- column facts
  have hcolfact : ∀ c ∈ cols, ∀ l ∈ lags,
      (addLagCols df cols lags).getCol (lagName c l) = shiftCol l (df.getCol c) := by
    intro c hc l hl
    rw [hfold]
    exact spec.2.2.2.2.2.1 (c, l) ((mem_lagPairs cols lags (c, l)).mpr ⟨hc, hl⟩)
  -- the dropped-rows fact
  have hextn : (addLagCols df cols lags).nRows = df.nRows := by
    rw [hfold]
    exact spec.2.2.1
  have hextidx : (addLagCols df cols lags).index = df.index := by
    rw [hfold]
    exact spec.2.1
  have hrowchar : ∀ i, (h : i < (addLagCols df cols lags).rows.length) →
      ((addLagCols df cols lags).rows[i].contains none = true
        ↔ i < maxLagOf lags) := by
    intro i hi
    have hin : i < df.nRows := by
      have : (addLagCols df cols lags).rows.length = df.nRows := hextn
      omega
    have hgd : (addLagCols df cols lags).rows[i]
        = df.rows.getD i []
          ++ (lagPairs cols lags).map
            (fun p => (shiftCol p.2 (df.getCol p.1)).getD i none) := by
      rw [← List.getD_eq_getElem _ [] hi, hfold]
      exact spec.2.2.2.2.2.2 i hin
    constructor
    · intro hcont
      have hmem := mem_of_contains_none_true _ hcont
      rw [hgd] at hmem
      rcases List.mem_append.mp hmem with hl | hr
      · exfalso
        have hgde : df.rows.getD i [] = df.rows[i] :=
          List.getD_eq_getElem df.rows [] (by exact hin)
        rw [hgde] at hl
        exact hnomiss df.rows[i] (List.getElem_mem _) hl
      · rcases List.mem_map.mp hr with ⟨q, hq, hcell⟩
        rcases (mem_lagPairs cols lags q).mp hq with ⟨hq1, hq2⟩
        by_contra hilt
        push_neg at hilt
        have hql : q.2 ≤ i := le_trans (le_maxLagOf q.2 lags hq2) hilt
        have hxlen : i < (df.getCol q.1).length := by
          rw [getCol_length df q.1 (hcols q.1 hq1)]
          exact hin
        rw [shiftCol_getD_ge q.2 _ i hxlen hql] at hcell
        rcases colIdx_exists_of_mem df q.1 (hcols q.1 hq1) with ⟨j, hj, hjlt, -⟩
        rw [getCol_eq_map df q.1 j hj] at hcell
        have him : i - q.2 < df.rows.length := by
          have : df.rows.length = df.nRows := rfl
          omega
        rw [List.getD_eq_getElem _ _ (by rw [List.length_map]; exact him),
          List.getElem_map] at hcell
        have hjr : j < (df.rows[i - q.2]).length := by
          rw [hw df.rows[i - q.2] (List.getElem_mem _)]
          exact hjlt
        rw [List.getD_eq_getElem _ _ hjr] at hcell
        exact hnomiss df.rows[i - q.2] (List.getElem_mem _)
          (hcell ▸ List.getElem_mem hjr)
    · intro hilt
      rcases (lt_maxLagOf_iff i lags).mp hilt with ⟨l, hl, hil⟩
      rcases List.exists_mem_of_ne_nil cols hcne with ⟨c, hc⟩
      apply contains_none_true_of_mem
      rw [hgd]
      refine List.mem_append.mpr (Or.inr ?_)
      refine List.mem_map.mpr ⟨(c, l), (mem_lagPairs cols lags (c, l)).mpr ⟨hc, hl⟩, ?_⟩
      show (shiftCol l (df.getCol c)).getD i none = none
      refine shiftCol_getD_lt l _ i ?_ hil
      rw [getCol_length df c (hcols c hc)]
      exact hin
  have hdroprows : (add_lag_features df cols lags).rows
      = (addLagCols df cols lags).rows.drop (min (maxLagOf lags) df.nRows) := by
    have hrw : (add_lag_features df cols lags).rows
        = (((addLagCols df cols lags).index.zip
            (addLagCols df cols lags).rows).filter
              (fun pr => !(pr.2.contains none))).map Prod.snd := rfl
    rw [hrw, hextidx,
      zip_filter_map_snd (fun r : List Cell => !(r.contains none)) df.index
        (addLagCols df cols lags).rows (by rw [hil]; exact hextn.symm)]
    have hlen : (addLagCols df cols lags).rows.length = df.nRows := hextn
    refine filter_eq_drop _ _ _ (by rw [hlen]; omega) ?_ ?_
    · intro i hi hik
      have hik' : i < maxLagOf lags := by omega
      have := (hrowchar i hi).mpr hik'
      rw [this]
      rfl
    · intro i hi hik
      have hin : i < df.nRows := by
        have : (addLagCols df cols lags).rows.length = df.nRows := hextn
        omega
      have hge : ¬(i < maxLagOf lags) := by omega
      cases hcc : (addLagCols df cols lags).rows[i].contains none with
      | false => rfl
      | true => exact absurd ((hrowchar i hi).mp hcc) hge
  refine ⟨?_, hcolfact, ?_, hdroprows, ?_⟩
  · show (addLagCols df cols lags).header = _
    rw [hfold, spec.1, ← lagNames_eq_pairs_map]
  · intro c hc l hl i hli hin
    rw [hcolfact c hc l hl]
    refine shiftCol_getD_ge l _ i ?_ hli
    rw [getCol_length df c (hcols c hc)]
    exact hin
  · show (add_lag_features df cols lags).rows.length = _
    have hlen : (addLagCols df cols lags).rows.length = df.nRows := hextn
    rw [hdroprows, List.length_drop, hlen]

/-- Witness for C6 (amended) at the concrete 5-row no-missing table. -/
theorem C6_witness :
    (add_lag_features lagC6 ["x"] [1]).header = lagC6.header ++ lagNames ["x"] [1] ∧
      (addLagCols lagC6 ["x"] [1]).getCol (lagName "x" 1)
        = shiftCol 1 (lagC6.getCol "x") ∧
      ((addLagCols lagC6 ["x"] [1]).getCol (lagName "x" 1)).getD 2 none
        = (lagC6.getCol "x").getD 1 none ∧
      (add_lag_features lagC6 ["x"] [1]).rows
        = (addLagCols lagC6 ["x"] [1]).rows.drop (min (maxLagOf [1]) lagC6.nRows) ∧
      (add_lag_features lagC6 ["x"] [1]).nRows
        = lagC6.nRows - min (maxLagOf [1]) lagC6.nRows := by
  have h := C6_lag_features lagC6 ["x"] [1] (by decide) (by decide) (by decide)
    (by decide) (by decide) (by decide) (by decide)
  refine ⟨h.1, h.2.1 "x" (by decide) 1 (by decide), ?_, h.2.2.2.1, h.2.2.2.2⟩
  have h2 := h.2.2.1 "x" (by decide) 1 (by decide) 2 (by omega) (by decide)
  simpa using h2

/-! Claim C8: the schema normalizer refines the spec's ordered-candidate
renaming contract. -/

/-- The datetime if/elif chain of the normalizer (lines 9-13). -/
def stageDt (cols : List String) : List String :=
  if cols.contains "datetime" then cols
  else if cols.contains "DateTime" then renameStr cols "DateTime" "datetime"
  else if cols.contains "date" then renameStr cols "date" "datetime"
  else cols

/-- The traffic-volume if/elif chain of the normalizer (lines 16-20). -/
def stageTv (cols : List String) : List String :=
  if cols.contains "traffic_volume" then cols
  else if cols.contains "Vehicles" then renameStr cols "Vehicles" "traffic_volume"
  else if cols.contains "traffic" then renameStr cols "traffic" "traffic_volume"
  else cols

/-- The pm25 candidate loop of the normalizer (lines 23-27). -/
def stagePm (cols : List String) : List String :=
  if cols.contains "pm25" then cols
  else
    match pm25Candidates.find? (fun c => cols.contains c) with
    | some a => renameStr cols a "pm25"
    | none => cols

theorem normalizeHeader_eq_stages (cols : List String) :
    normalizeHeader cols = stagePm (stageTv (stageDt cols)) := rfl

theorem contains_eq_true_iff (l : List String) (a : String) :
    l.contains a = true ↔ a ∈ l := List.elem_iff

theorem contains_congr (l l' : List String) (a : String) (h : a ∈ l ↔ a ∈ l') :
    l.contains a = l'.contains a := by
  cases hc : l'.contains a with
  | true =>
    exact (contains_eq_true_iff l a).mpr (h.mpr ((contains_eq_true_iff l' a).mp hc))
  | false =>
    cases hl : l.contains a with
    | false => rfl
    | true =>
      have hmem := h.mp ((contains_eq_true_iff l a).mp hl)
      rw [(contains_eq_true_iff l' a).mpr hmem] at hc
      exact Bool.noConfusion hc

theorem mem_renameStr_other (cols : List String) (old nw s : String)
    (h1 : s ≠ old) (h2 : s ≠ nw) : s ∈ renameStr cols old nw ↔ s ∈ cols := by
  unfold renameStr
  rw [List.mem_map]
  constructor
  · rintro ⟨c, hc, hfc⟩
    by_cases hco : c = old
    · rw [hco, if_pos rfl] at hfc
      exact absurd hfc.symm h2
    · rw [if_neg hco] at hfc
      exact hfc ▸ hc
  · intro hs
    refine ⟨s, hs, ?_⟩
    rw [if_neg h1]

theorem contains_stageDt (cols : List String) (s : String)
    (h1 : s ≠ "DateTime") (h2 : s ≠ "date") (h3 : s ≠ "datetime") :
    (stageDt cols).contains s = cols.contains s := by
  unfold stageDt
  by_cases c1 : cols.contains "datetime" = true
  · rw [if_pos c1]
  · rw [if_neg c1]
    by_cases c2 : cols.contains "DateTime" = true
    · rw [if_pos c2]
      exact contains_congr _ _ _ (mem_renameStr_other cols "DateTime" "datetime" s h1 h3)
    · rw [if_neg c2]
      by_cases c3 : cols.contains "date" = true
      · rw [if_pos c3]
        exact contains_congr _ _ _ (mem_renameStr_other cols "date" "datetime" s h2 h3)
      · rw [if_neg c3]

theorem contains_stageTv (cols : List String) (s : String)
    (h1 : s ≠ "Vehicles") (h2 : s ≠ "traffic") (h3 : s ≠ "traffic_volume") :
    (stageTv cols).contains s = cols.contains s := by
  unfold stageTv
  by_cases c1 : cols.contains "traffic_volume" = true
  · rw [if_pos c1]
  · rw [if_neg c1]
    by_cases c2 : cols.contains "Vehicles" = true
    · rw [if_pos c2]
      exact contains_congr _ _ _
        (mem_renameStr_other cols "Vehicles" "traffic_volume" s h1 h3)
    · rw [if_neg c2]
      by_cases c3 : cols.contains "traffic" = true
      · rw [if_pos c3]
        exact contains_congr _ _ _
          (mem_renameStr_other cols "traffic" "traffic_volume" s h2 h3)
      · rw [if_neg c3]

theorem find?_congr_mem {α : Type} (p q : α → Bool) (l : List α)
    (h : ∀ a ∈ l, p a = q a) : l.find? p = l.find? q := by
  induction l with
  | nil => rfl
  | cons a as ih =>
    have ha := h a (by simp)
    by_cases hp : p a = true
    · rw [List.find?_cons_of_pos as hp, List.find?_cons_of_pos as (ha ▸ hp)]
    · rw [List.find?_cons_of_neg as hp, List.find?_cons_of_neg as (by rw [← ha]; exact hp),
        ih (fun x hx => h x (by simp [hx]))]

theorem specWinner_mem (cols : List String) (canon a : String)
    (aliases : List String) (h : specWinner cols canon aliases = some a) :
    a ∈ aliases := by
  unfold specWinner at h
  by_cases hc : cols.contains canon = true
  · rw [if_pos hc] at h
    exact Option.noConfusion h
  · rw [if_neg hc] at h
    exact List.mem_of_find?_eq_some h

theorem stageDt_eq_map (cols : List String) :
    stageDt cols = cols.map (fun c =>
      if specWinner cols "datetime" datetimeAliases = some c then "datetime" else c) := by
  by_cases c1 : cols.contains "datetime" = true
  · have hw : specWinner cols "datetime" datetimeAliases = none := by
      unfold specWinner
      rw [if_pos c1]
    unfold stageDt
    rw [if_pos c1]
    simp [hw]
  · have hwbase : specWinner cols "datetime" datetimeAliases
        = datetimeAliases.find? (fun a => cols.contains a) := by
      unfold specWinner
      rw [if_neg c1]
    by_cases c2 : cols.contains "DateTime" = true
    · have hw : specWinner cols "datetime" datetimeAliases = some "DateTime" := by
        rw [hwbase]
        exact List.find?_cons_of_pos _ c2
      unfold stageDt
      rw [if_neg c1, if_pos c2]
      unfold renameStr
      apply List.map_congr_left
      intro c _
      by_cases hc : c = "DateTime"
      · rw [if_pos hc, hw, if_pos (by rw [hc])]
      · rw [if_neg hc, hw, if_neg (fun hh => hc (Option.some.inj hh).symm)]
    · by_cases c3 : cols.contains "date" = true
      · have hw : specWinner cols "datetime" datetimeAliases = some "date" := by
          rw [hwbase]
          unfold datetimeAliases
          rw [List.find?_cons_of_neg _ c2]
          exact List.find?_cons_of_pos _ c3
        unfold stageDt
        rw [if_neg c1, if_neg c2, if_pos c3]
        unfold renameStr
        apply List.map_congr_left
        intro c _
        by_cases hc : c = "date"
        · rw [if_pos hc, hw, if_pos (by rw [hc])]
        · rw [if_neg hc, hw, if_neg (fun hh => hc (Option.some.inj hh).symm)]
      · have hw : specWinner cols "datetime" datetimeAliases = none := by
          rw [hwbase]
          unfold datetimeAliases
          rw [List.find?_cons_of_neg _ c2, List.find?_cons_of_neg _ c3]
          rfl
        unfold stageDt
        rw [if_neg c1, if_neg c2, if_neg c3]
        simp [hw]

theorem stageTv_eq_map (cols : List String) :
    stageTv (stageDt cols) = (stageDt cols).map (fun c =>
      if specWinner cols "traffic_volume" trafficAliases = some c
      then "traffic_volume" else c) := by
  have t1 : (stageDt cols).contains "traffic_volume" = cols.contains "traffic_volume" :=
    contains_stageDt cols _ (by decide) (by decide) (by decide)
  have t2 : (stageDt cols).contains "Vehicles" = cols.contains "Vehicles" :=
    contains_stageDt cols _ (by decide) (by decide) (by decide)
  have t3 : (stageDt cols).contains "traffic" = cols.contains "traffic" :=
    contains_stageDt cols _ (by decide) (by decide) (by decide)
  by_cases c1 : cols.contains "traffic_volume" = true
  · have hw : specWinner cols "traffic_volume" trafficAliases = none := by
      unfold specWinner
      rw [if_pos c1]
    unfold stageTv
    rw [t1, if_pos c1]
    simp [hw]
  · have hwbase : specWinner cols "traffic_volume" trafficAliases
        = trafficAliases.find? (fun a => cols.contains a) := by
      unfold specWinner
      rw [if_neg c1]
    by_cases c2 : cols.contains "Vehicles" = true
    · have hw : specWinner cols "traffic_volume" trafficAliases = some "Vehicles" := by
        rw [hwbase]
        exact List.find?_cons_of_pos _ c2
      unfold stageTv
      rw [t1, if_neg c1, t2, if_pos c2]
      unfold renameStr
      apply List.map_congr_left
      intro c _
      by_cases hc : c = "Vehicles"
      · rw [if_pos hc, hw, if_pos (by rw [hc])]
      · rw [if_neg hc, hw, if_neg (fun hh => hc (Option.some.inj hh).symm)]
    · by_cases c3 : cols.contains "traffic" = true
      · have hw : specWinner cols "traffic_volume" trafficAliases = some "traffic" := by
          rw [hwbase]
          unfold trafficAliases
          rw [List.find?_cons_of_neg _ c2]
          exact List.find?_cons_of_pos _ c3
        unfold stageTv
        rw [t1, if_neg c1, t2, if_neg c2, t3, if_pos c3]
        unfold renameStr
        apply List.map_congr_left
        intro c _
        by_cases hc : c = "traffic"
        · rw [if_pos hc, hw, if_pos (by rw [hc])]
        · rw [if_neg hc, hw, if_neg (fun hh => hc (Option.some.inj hh).symm)]
      · have hw : specWinner cols "traffic_volume" trafficAliases = none := by
          rw [hwbase]
          unfold trafficAliases
          rw [List.find?_cons_of_neg _ c2, List.find?_cons_of_neg _ c3]
          rfl
        unfold stageTv
        rw [t1, if_neg c1, t2, if_neg c2, t3, if_neg c3]
        simp [hw]

theorem stagePm_eq_map (cols : List String) :
    stagePm (stageTv (stageDt cols)) = (stageTv (stageDt cols)).map (fun c =>
      if specWinner cols "pm25" pm25Candidates = some c then "pm25" else c) := by
  have tpm : (stageTv (stageDt cols)).contains "pm25" = cols.contains "pm25" := by
    rw [contains_stageTv _ _ (by decide) (by decide) (by decide),
      contains_stageDt _ _ (by decide) (by decide) (by decide)]
  have tfind : pm25Candidates.find? (fun c => (stageTv (stageDt cols)).contains c)
      = pm25Candidates.find? (fun a => cols.contains a) := by
    apply find?_congr_mem
    intro a ha
    unfold pm25Candidates at ha
    simp only [List.mem_cons, List.not_mem_nil, or_false] at ha
    rcases ha with rfl | rfl | rfl | rfl | rfl | rfl <;>
      rw [contains_stageTv _ _ (by decide) (by decide) (by decide),
        contains_stageDt _ _ (by decide) (by decide) (by decide)]
  by_cases c1 : cols.contains "pm25" = true
  · have hw : specWinner cols "pm25" pm25Candidates = none := by
      unfold specWinner
      rw [if_pos c1]
    unfold stagePm
    rw [tpm, if_pos c1]
    simp [hw]
  · have hwbase : specWinner cols "pm25" pm25Candidates
        = pm25Candidates.find? (fun a => cols.contains a) := by
      unfold specWinner
      rw [if_neg c1]
    unfold stagePm
    rw [tpm, if_neg c1, tfind]
    cases hf : pm25Candidates.find? (fun a => cols.contains a) with
    | none =>
      have hw : specWinner cols "pm25" pm25Candidates = none := hwbase.trans hf
      simp [hw]
    | some a =>
      have hw : specWinner cols "pm25" pm25Candidates = some a := hwbase.trans hf
      unfold renameStr
      apply List.map_congr_left
      intro c _
      by_cases hc : c = a
      · rw [if_pos hc, hw, if_pos (by rw [hc])]
      · rw [if_neg hc, hw, if_neg (fun hh => hc (Option.some.inj hh).symm)]

/-- C8: the schema normalizer renames alias columns to canonical names by
the spec's ordered-candidate contract — per canonical field the first alias
present in the header wins (and only when the canonical name is absent),
every other column passes through unchanged, and the function is total, so
no error is raised when no alias matches; rows and index are untouched. -/
theorem C8_normalizer_refines_spec (t : Table) :
    (normalizeSchema t).header = t.header.map (specRename t.header) ∧
      (normalizeSchema t).rows = t.rows ∧
      (normalizeSchema t).index = t.index := by
  refine ⟨?_, rfl, rfl⟩
  show normalizeHeader t.header = _
  rw [normalizeHeader_eq_stages, stagePm_eq_map, stageTv_eq_map, stageDt_eq_map,
    List.map_map, List.map_map]
  apply List.map_congr_left
  intro c _
  simp only [Function.comp]
  unfold specRename
  by_cases h1 : specWinner t.header "datetime" datetimeAliases = some c
  · have hnf : ¬specWinner t.header "traffic_volume" trafficAliases
        = some "datetime" := by
      intro hh
      have hmm := specWinner_mem _ _ _ _ hh
      simp [trafficAliases] at hmm
    have hnf2 : ¬specWinner t.header "pm25" pm25Candidates = some "datetime" := by
      intro hh
      have hmm := specWinner_mem _ _ _ _ hh
      simp [pm25Candidates] at hmm
    rw [if_pos h1, if_neg hnf, if_neg hnf2, if_pos h1]
  · rw [if_neg h1]
    by_cases h2 : specWinner t.header "traffic_volume" trafficAliases = some c
    · have hnf : ¬specWinner t.header "pm25" pm25Candidates
          = some "traffic_volume" := by
        intro hh
        have hmm := specWinner_mem _ _ _ _ hh
        simp [pm25Candidates] at hmm
      rw [if_pos h2, if_neg hnf, if_neg h1, if_pos h2]
    · rw [if_neg h2]
      by_cases h3 : specWinner t.header "pm25" pm25Candidates = some c
      · rw [if_pos h3, if_neg h1, if_neg h2]
      · rw [if_neg h3, if_neg h1, if_neg h2]
